import Mathlib

/-!
The shaper `crispy::text::TextShaper`

A shallow embedding of `src/crispy/text/TextShaper.cpp`: the shaping cache, the
fallback-font resolution and the missing-glyph patcher, followed by theorems about them.

Conventions of the embedding.

* A `Font&` is represented by its identity (the address used as key of `hb_fonts_`), a `Nat`.
  What the code asks of a font or of the shaping engine (`Font::maxAdvance`,
  `FT_Get_Char_Index`, `hb_shape`, `hb_buffer_normalize_glyphs`, the hash of the two
  unordered containers) is collected in `Collaborators` and taken as a parameter.
* `unsigned int` is a `Nat` reduced modulo `2 ^ 32`; `hb_position_t` is an `Int`.
* Caller memory is a word-addressed function `Memory`; `_codepoints` and `_clusters` are
  addresses into it, and a `std::u32string_view` is a `View` (address and length) whose content
  is whatever the memory holds when the view is read.
* The declarations of `cache_` and `cacheKeys_` are in `TextShaper.h`, which is not among the
  sources; the calls `cacheKeys_[_key]` and `cache_.find(u32string_view(...))` fix the key type
  of both as `std::u32string_view`, since a view does not convert to a `std::u32string`
  implicitly. Both are modelled as lists of nodes searched front to back: a node answers a query
  when the hash code it was filed under is the code of the query and its key, read at the time
  of the query, has the content of the query. A key of `cacheKeys_` is the caller's view; a key
  of `cache_` is a view of an owned string held in `cacheKeys_` and reads what that string
  holds at the time of the query. No node is ever removed, so positions in the lists are stable.
  This is what the program does as long as every owned string that is assigned again fits the
  small-string buffer of `std::u32string` (`localCapacity` codepoints), for then the assignment
  copies into the buffer the key views. A longer string that is assigned again releases that
  buffer; the program then reads released storage, which no definition can follow. The store
  records this in the field `dangling`, and once it is set the lists no longer describe the
  program.
* The hash of the containers is a parameter; the concrete settings of this file use `stdHash`,
  the `std::hash<std::u32string_view>` of libstdc++ on a 64-bit target.
* `clearCache` walks an unordered container; the order in which the model records the handles
  destroyed by one call is the order of registration and carries no meaning.
* `hb_buf_` is scratch storage that every attempt clears before use; it is not part of the state.
* The diagnostic written to `cerr` under `!defined(NDEBUG)` changes no state and is left out.
* Three instrumentation fields (`created`, `destroyed`, `shaped`) record the engine calls.
-/

namespace crispy.text

/-! ## Data model -/

/-- Conversion to `unsigned int`: reduction modulo `2 ^ 32`. -/
def toUnsigned (z : Int) : Nat := (z % (2 ^ 32 : Int)).toNat

/-- One positioned glyph: `GlyphPosition{font, x, y, glyphIndex, cluster}`. -/
structure GlyphPosition where
  font : Nat
  x : Nat
  y : Nat
  glyphIndex : Nat
  cluster : Nat
deriving DecidableEq, Repr

abbrev GlyphPositionList := List GlyphPosition

/-- One primary font and the ordered fallbacks: `FontList = pair<Font&, vector<Font&>>`. -/
abbrev FontList := Nat × List Nat

/-- One output slot of the engine: `hb_glyph_info_t` joined with `hb_glyph_position_t`. -/
structure HbGlyph where
  codepoint : Nat
  cluster : Nat
  x_offset : Int
  y_offset : Int
  x_advance : Int
  y_advance : Int
deriving DecidableEq, Repr

/-- What the code consumes from the font type, FreeType, HarfBuzz and the standard library.
`hash` is the hash code the unordered containers compare before they compare keys, and
`localCapacity` is the number of codepoints a `std::u32string` holds without allocating. -/
structure Collaborators where
  maxAdvance : Nat → Int
  FT_Get_Char_Index : Nat → Nat → Nat
  hb_shape : Nat → List (Nat × Nat) → List HbGlyph
  hb_buffer_normalize_glyphs : List HbGlyph → List HbGlyph
  hash : List Nat → Nat
  localCapacity : Nat

/-- Caller memory, one `char32_t` or `unsigned` per address. -/
abbrev Memory := Nat → Nat

/-- A `std::u32string_view` over caller memory: `data()` and `size()`. -/
structure View where
  data : Nat
  size : Nat
deriving DecidableEq, Repr

/-- The codepoints a view currently denotes. -/
def View.read (m : Memory) (v : View) : List Nat :=
  (List.range v.size).map (fun i => m (v.data + i))

/-- A node of `cacheKeys_`: the key is the view handed in by the caller, the mapped value is
the owned `std::u32string`; `code` is the hash code under which the node was filed. -/
structure KeyNode where
  key : View
  code : Nat
  owned : List Nat
deriving DecidableEq, Repr

/-- A node of `cache_`: the key is a view of the owned string of node `keyNode` of
`cacheKeys_` and is read through that string. The view stays on the string's storage as long
as the string is only assigned content that fits its small-string buffer; see `dangling`. -/
structure CacheNode where
  keyNode : Nat
  code : Nat
  value : GlyphPositionList
deriving DecidableEq, Repr

/-- The members of `TextShaper` and the instrumentation. A handle returned by
`hb_ft_font_create_referenced` is the number of handles created before it. The flag
`dangling` is set by a store that releases string storage which a key of `cache_` views; the
program's later lookups read released storage, so from then on `cache_` and `cacheKeys_` are
no account of the program. -/
structure TextShaper where
  hb_fonts_ : List (Nat × Nat)
  cache_ : List CacheNode
  cacheKeys_ : List KeyNode
  created : List Nat
  destroyed : List Nat
  shaped : List (Nat × Nat)
  dangling : Bool
deriving DecidableEq, Repr

/-- The state left by the constructor. -/
def TextShaper.new : TextShaper :=
  { hb_fonts_ := [], cache_ := [], cacheKeys_ := [], created := [], destroyed := [], shaped := [],
    dangling := false }

/-! ## Container primitives -/

/-- Position of the first node satisfying `p`. -/
def findNode {α : Type} (p : α → Bool) : List α → Option Nat
  | [] => none
  | a :: as => if p a then some 0 else (findNode p as).map (· + 1)

/-- Rewrite the node at position `i`. -/
def modifyNode {α : Type} (f : α → α) : Nat → List α → List α
  | _, [] => []
  | 0, a :: as => f a :: as
  | i + 1, a :: as => a :: modifyNode f i as

/-- Does the node of `cacheKeys_` answer a query for the content `c`? Its key is read from
the caller memory as it is now. -/
def keyMatches (w : Collaborators) (m : Memory) (c : List Nat) (n : KeyNode) : Bool :=
  n.code == w.hash c && n.key.read m == c

/-- The string a key of `cache_` views. -/
def ownedAt (keys : List KeyNode) (i : Nat) : Option (List Nat) :=
  (keys.get? i).map (fun n => n.owned)

/-- Does the node of `cache_` answer a query for the content `c`? -/
def cacheMatches (w : Collaborators) (keys : List KeyNode) (c : List Nat) (n : CacheNode) : Bool :=
  n.code == w.hash c && ownedAt keys n.keyNode == some c

/-- The subscript operator of a container whose lookup is `p`: the position of the first
node found, or of a node `fresh` created at the end when there is none. -/
def indexNode {α : Type} (p : α → Bool) (fresh : α) (l : List α) : List α × Nat :=
  match findNode p l with
  | some i => (l, i)
  | none => (l ++ [fresh], l.length)

/-- The call `cacheKeys_[k]`: the position of the node for `k`, created with an empty string
when there is none. -/
def keysIndex (w : Collaborators) (m : Memory) (keys : List KeyNode) (k : View) :
    List KeyNode × Nat :=
  indexNode (keyMatches w m (k.read m))
    { key := k, code := w.hash (k.read m), owned := [] } keys

/-- The call `cache_[v]` for a view `v` of the owned string of node `j` of `cacheKeys_`: the
position of the node for `v`, created with an empty list when there is none. -/
def cacheIndex (w : Collaborators) (keys : List KeyNode) (nodes : List CacheNode) (j : Nat) :
    List CacheNode × Nat :=
  indexNode (cacheMatches w keys ((ownedAt keys j).getD []))
    { keyNode := j, code := w.hash ((ownedAt keys j).getD []), value := [] } nodes

/-- The call `cache_.find(v)` for content `c`: the mapped list of the node found. -/
def TextShaper.find (w : Collaborators) (s : TextShaper) (c : List Nat) :
    Option GlyphPositionList :=
  (s.cache_.find? (cacheMatches w s.cacheKeys_ c)).map (fun n => n.value)

/-! ## The operations of `TextShaper` -/

/-- The predicate `glyphMissing`. -/
def glyphMissing (gp : GlyphPosition) : Bool := gp.glyphIndex == 0

/-- The codepoint and cluster pairs given to `hb_buffer_add`. -/
def hbInput (m : Memory) (size codepoints clusters : Nat) : List (Nat × Nat) :=
  (List.range size).map (fun i => (m (codepoints + i), m (clusters + i)))

/-- The loop over the engine output, with the cursors `cx` and `cy`. -/
def emitGlyphs (maxAdvance : Int) (font : Nat) : Nat → Nat → List HbGlyph → GlyphPositionList
  | _, _, [] => []
  | cx, cy, g :: gs =>
    { font := font
      x := toUnsigned ((cx : Int) + Int.shiftRight g.x_offset 6)
      y := toUnsigned ((cy : Int) + Int.shiftRight g.y_offset 6)
      glyphIndex := g.codepoint
      cluster := g.cluster } ::
    emitGlyphs maxAdvance font
      (if g.x_advance ≠ 0 then toUnsigned ((cx : Int) + maxAdvance) else cx)
      (toUnsigned ((cy : Int) + Int.shiftRight g.y_advance 6)) gs

/-- The glyphs the engine reports for a font and an input buffer, after normalisation. -/
def engineOutput (w : Collaborators) (font : Nat) (input : List (Nat × Nat)) : List HbGlyph :=
  w.hb_buffer_normalize_glyphs (w.hb_shape font input)

/-- The handle lookup of the single-font attempt: reuse the registered handle or create and
register a new one. Returns the new state and the handle. -/
def TextShaper.handleFor (s : TextShaper) (font : Nat) : TextShaper × Nat :=
  match s.hb_fonts_.find? (fun e => e.1 == font) with
  | some e => (s, e.2)
  | none =>
    ({ s with hb_fonts_ := s.hb_fonts_ ++ [(font, s.created.length)]
              created := s.created ++ [font] }, s.created.length)

/-- The single-font attempt
`shape(_size, _codepoints, _clusters, _font, _result)`: the new state, the content of
`_result` on exit and the returned flag. The list is cleared before it is filled, so the
content of `_result` on entry is not read. -/
def TextShaper.shapeFont (w : Collaborators) (m : Memory) (s : TextShaper)
    (size codepoints clusters font : Nat) (_result : GlyphPositionList) :
    TextShaper × GlyphPositionList × Bool :=
  let input := hbInput m size codepoints clusters
  let h := s.handleFor font
  let s2 := { h.1 with shaped := h.1.shaped ++ [(font, h.2)] }
  let result := emitGlyphs (w.maxAdvance font) font 0 0 (engineOutput w font input)
  (s2, result, !(result.any glyphMissing))

/-- The patcher `replaceMissingGlyphs(_font, _result)`. -/
def replaceMissingGlyphs (w : Collaborators) (font : Nat) (result : GlyphPositionList) :
    GlyphPositionList :=
  let missingGlyph := w.FT_Get_Char_Index font 0xFFFD
  if missingGlyph ≠ 0 then
    result.map (fun gp => if glyphMissing gp then { gp with glyphIndex := missingGlyph } else gp)
  else result

/-- Does the assignment `cacheKeys_[_key] = u32string(_key)` release storage that a key of
`cache_` views? It does when the node for `_key` exists already, the string assigned does not
fit the small-string buffer, and some node of `cache_` views the string of that node. -/
def releasesViewed (w : Collaborators) (m : Memory) (s : TextShaper) (key : View) : Bool :=
  match findNode (keyMatches w m (key.read m)) s.cacheKeys_ with
  | some i => decide (w.localCapacity < key.size) && s.cache_.any (fun c => c.keyNode == i)
  | none => false

/-- The store `cache(_key, move(_glyphPosition))`: the new state and the content of the list
the returned reference denotes. -/
def TextShaper.cache (w : Collaborators) (m : Memory) (s : TextShaper) (key : View)
    (glyphPosition : GlyphPositionList) : TextShaper × GlyphPositionList :=
  let k1 := keysIndex w m s.cacheKeys_ key
  let keys2 := modifyNode (fun n => { n with owned := key.read m }) k1.2 k1.1
  let k3 := keysIndex w m keys2 key
  let c1 := cacheIndex w k3.1 s.cache_ k3.2
  let nodes2 := modifyNode (fun n => { n with value := glyphPosition }) c1.2 c1.1
  ({ s with cacheKeys_ := k3.1, cache_ := nodes2,
            dangling := s.dangling || releasesViewed w m s key }, glyphPosition)

/-- The loop over the fallback fonts: stops at the first attempt that succeeds. -/
def TextShaper.tryFallbacks (w : Collaborators) (m : Memory) (size codepoints clusters : Nat) :
    TextShaper → List Nat → GlyphPositionList → TextShaper × GlyphPositionList × Bool
  | s, [], gp => (s, gp, false)
  | s, fallback :: rest, gp =>
    let r := s.shapeFont w m size codepoints clusters fallback gp
    if r.2.2 then (r.1, r.2.1, true)
    else TextShaper.tryFallbacks w m size codepoints clusters r.1 rest r.2.1

/-- The entry point `shape(_fonts, _size, _codepoints, _clusters)`: the new state and the
content of the list the returned reference denotes. -/
def TextShaper.shape (w : Collaborators) (m : Memory) (s : TextShaper) (fonts : FontList)
    (size codepoints clusters : Nat) : TextShaper × GlyphPositionList :=
  let cacheKey : View := { data := codepoints, size := size }
  match s.find w (cacheKey.read m) with
  | some cached => (s, cached)
  | none =>
    let r1 := s.shapeFont w m size codepoints clusters fonts.1 []
    if r1.2.2 then r1.1.cache w m cacheKey r1.2.1
    else
      let r2 := TextShaper.tryFallbacks w m size codepoints clusters r1.1 fonts.2 r1.2.1
      if r2.2.2 then r2.1.cache w m cacheKey r2.2.1
      else
        let r3 := r2.1.shapeFont w m size codepoints clusters fonts.1 r2.2.1
        r3.1.cache w m cacheKey (replaceMissingGlyphs w fonts.1 r3.2.1)

/-- The member `clearCache()`: every registered handle is destroyed and `hb_fonts_` is
cleared; `cache_` and `cacheKeys_` are not mentioned by the body. The loop walks an unordered
container, so the order of the handles appended to `destroyed` by one call is not the
program's; only which handles are destroyed, and how often, is. -/
def TextShaper.clearCache (s : TextShaper) : TextShaper :=
  { s with destroyed := s.destroyed ++ s.hb_fonts_.map (fun e => e.2), hb_fonts_ := [] }

/-- A single-font attempt made directly on a shaper fresh from the constructor: the list it
leaves in `_result` and the flag it returns. -/
def directAttempt (w : Collaborators) (m : Memory) (size codepoints clusters font : Nat) :
    GlyphPositionList × Bool :=
  (TextShaper.new.shapeFont w m size codepoints clusters font []).2

/-- The arguments of one call of the entry point `shape`, with the caller memory at the time
of the call. -/
structure ShapeCall where
  memory : Memory
  fonts : FontList
  size : Nat
  codepoints : Nat
  clusters : Nat

/-- A sequence of calls of the entry point `shape`, with no other member called in between. -/
def TextShaper.shapeAll (w : Collaborators) : TextShaper → List ShapeCall → TextShaper
  | s, [] => s
  | s, c :: cs =>
    TextShaper.shapeAll w (s.shape w c.memory c.fonts c.size c.codepoints c.clusters).1 cs

/-- The handle map agrees with the record of engine calls: the fonts registered in
`hb_fonts_` are the fonts for which a handle was created, each once, they are the fonts that
were attempted, and every attempt ran on the handle registered for its font. -/
def TextShaper.HandlesAgree (s : TextShaper) : Prop :=
  s.hb_fonts_.map Prod.fst = s.created
    ∧ s.created.Nodup
    ∧ (∀ f : Nat, f ∈ s.created ↔ f ∈ s.shaped.map Prod.fst)
    ∧ ∀ p ∈ s.shaped, p ∈ s.hb_fonts_

/-- Every key of `cache_` views the string of an existing node of `cacheKeys_`. -/
def TextShaper.KeysBacked (s : TextShaper) : Prop :=
  ∀ c ∈ s.cache_, c.keyNode < s.cacheKeys_.length

/-- No call of the sequence meets a node of `cacheKeys_` whose buffer the caller has
overwritten: whenever a node answers the run of a call, its owned string is that run. -/
def TextShaper.CallsSound (w : Collaborators) : TextShaper → List ShapeCall → Prop
  | _, [] => True
  | s, c :: cs =>
    (∀ n ∈ s.cacheKeys_,
        keyMatches w c.memory (View.read c.memory { data := c.codepoints, size := c.size }) n
          = true →
        n.owned = View.read c.memory { data := c.codepoints, size := c.size })
      ∧ TextShaper.CallsSound w (s.shape w c.memory c.fonts c.size c.codepoints c.clusters).1 cs

/-! ## The hash of the standard library -/

/-- The multiplier of `_Hash_bytes` in libstdc++ for a 64-bit `size_t`. -/
def hashMul : Nat := 0xc6a4a7935bd1e995

/-- The step `shift_mix` of `_Hash_bytes`. -/
def shiftMix (v : Nat) : Nat := v ^^^ (v >>> 47)

/-- The loop of `_Hash_bytes` over the bytes of a run of `char32_t`: two codepoints make one
little-endian 64-bit word, a last single codepoint is the remainder of 4 bytes. -/
def hashBlocks (h : Nat) : List Nat → Nat
  | c1 :: c2 :: rest =>
    hashBlocks
      (((h ^^^ ((shiftMix (((c1 % 2 ^ 32 + (c2 % 2 ^ 32) * 2 ^ 32) * hashMul) % 2 ^ 64)
          * hashMul) % 2 ^ 64)) * hashMul) % 2 ^ 64) rest
  | [c] => ((h ^^^ (c % 2 ^ 32)) * hashMul) % 2 ^ 64
  | [] => h

/-- The function `std::hash<std::u32string_view>` of libstdc++ on a 64-bit target:
`_Hash_bytes(data, 4 * size, 0xc70f6907)`. -/
def stdHash (c : List Nat) : Nat :=
  shiftMix ((shiftMix (hashBlocks (0xc70f6907 ^^^ ((4 * c.length * hashMul) % 2 ^ 64)) c)
    * hashMul) % 2 ^ 64)

/-! ## A concrete setting -/

/-- Three fonts: font `1` has a glyph for `A` only and maps U+FFFD to glyph `7`, font `2` has
a glyph for `A` only and no replacement glyph, font `3` has a glyph for every codepoint. The
engine reports one glyph per codepoint, with an advance of 700 and an x-offset of 64 units.
The containers hash with `stdHash` and a string holds three codepoints without allocating, as
in libstdc++. -/
def exampleWorld : Collaborators where
  maxAdvance := fun _ => 8
  FT_Get_Char_Index := fun font c => if font = 1 ∧ c = 0xFFFD then 7 else 0
  hb_shape := fun font input =>
    input.map (fun p =>
      { codepoint := if font = 3 ∨ p.1 = 65 then p.1 else 0, cluster := p.2,
        x_offset := 64, y_offset := 0, x_advance := 700, y_advance := 0 })
  hb_buffer_normalize_glyphs := fun gs => gs
  hash := stdHash
  localCapacity := 3

/-- Caller memory holding the run `A B` at address 0 and the clusters `0 1` at address 10. -/
def memoryAB : Memory := fun a => if a = 0 then 65 else if a = 1 then 66 else if a = 11 then 1 else 0

/-- The memory `memoryAB` after the caller has written the run `I B` over the run `A B`; the
two runs have different hash codes. -/
def memoryIB : Memory := fun a => if a = 0 then 73 else if a = 1 then 66 else if a = 11 then 1 else 0

/-- The memory `memoryAB` after the caller has written the run `C D` over the run `A B`; the
two runs have different hash codes. -/
def memoryCD : Memory := fun a => if a = 0 then 67 else if a = 1 then 68 else if a = 11 then 1 else 0

/-- A setting in which the engine reports, for every codepoint, a vertical advance of 96
units and a vertical offset of -1 unit; every font has every glyph. -/
def verticalWorld : Collaborators where
  maxAdvance := fun _ => 8
  FT_Get_Char_Index := fun _ _ => 0
  hb_shape := fun _ input =>
    input.map (fun p =>
      { codepoint := p.1 + 1, cluster := p.2,
        x_offset := 0, y_offset := -1, x_advance := 0, y_advance := 96 })
  hb_buffer_normalize_glyphs := fun gs => gs
  hash := stdHash
  localCapacity := 3

/-- The run U+582F U+8073 U+4E00, three ideographs. -/
def formerRun : List Nat := [0x582F, 0x8073, 0x4E00]

/-- The run U+67A5 U+6DFF U+4F1D, three ideographs. `stdHash` gives it the hash code of
`formerRun`, 4055609943738716141. -/
def latterRun : List Nat := [0x67A5, 0x6DFF, 0x4F1D]

/-- Caller memory holding `formerRun` at address 0 and the clusters `0 1 2` at address 10. -/
def memoryFormer : Memory := fun a =>
  if a = 0 then 0x582F else if a = 1 then 0x8073 else if a = 2 then 0x4E00
  else if a = 11 then 1 else if a = 12 then 2 else 0

/-- The memory `memoryFormer` after the caller has written `latterRun` over `formerRun`. -/
def memoryLatter : Memory := fun a =>
  if a = 0 then 0x67A5 else if a = 1 then 0x6DFF else if a = 2 then 0x4F1D
  else if a = 11 then 1 else if a = 12 then 2 else 0

/-- The memory `memoryLatter` with `formerRun` written to a second buffer at address 20. -/
def memoryBoth : Memory := fun a =>
  if a = 0 then 0x67A5 else if a = 1 then 0x6DFF else if a = 2 then 0x4F1D
  else if a = 11 then 1 else if a = 12 then 2
  else if a = 20 then 0x582F else if a = 21 then 0x8073 else if a = 22 then 0x4E00 else 0

/-- A shaper that has shaped `formerRun` once from the buffer at address 0, with font `3` as
primary font. -/
def shapedFormer : TextShaper × GlyphPositionList :=
  TextShaper.new.shape exampleWorld memoryFormer (3, []) 3 0 10

/-- A shaper that has shaped the run `A B` once, with font `3` as primary font. -/
def shapedAB : TextShaper × GlyphPositionList :=
  TextShaper.new.shape exampleWorld memoryAB (3, []) 2 0 10

/-! ## Container lemmas -/

theorem findNode_modifyNode {α : Type} (p : α → Bool) (f : α → α) (hp : ∀ a, p (f a) = p a)
    (i : Nat) (l : List α) : findNode p (modifyNode f i l) = findNode p l := by
  induction l generalizing i with
  | nil => cases i <;> rfl
  | cons a as ih =>
    cases i with
    | zero => simp [modifyNode, findNode, hp]
    | succ i => simp [modifyNode, findNode, ih]

theorem findNode_append_fresh {α : Type} (p : α → Bool) (fresh : α) (hfresh : p fresh = true)
    (l : List α) (hl : findNode p l = none) : findNode p (l ++ [fresh]) = some l.length := by
  induction l with
  | nil => simp [findNode, hfresh]
  | cons a as ih =>
    by_cases ha : p a = true
    · simp [findNode, ha] at hl
    · simp only [findNode, ha] at hl
      simp only [Bool.false_eq_true, if_false, Option.map_eq_none'] at hl
      simp [findNode, ha, ih hl]

theorem find?_modifyNode_of_findNode {α : Type} (p : α → Bool) (f : α → α)
    (hp : ∀ a, p (f a) = p a) (l : List α) (i : Nat) (hi : findNode p l = some i) :
    ∃ a, l.get? i = some a ∧ p a = true ∧ (modifyNode f i l).find? p = some (f a)
      ∧ (modifyNode f i l).get? i = some (f a) := by
  induction l generalizing i with
  | nil => simp [findNode] at hi
  | cons a as ih =>
    by_cases ha : p a = true
    · simp [findNode, ha] at hi
      subst hi
      exact ⟨a, by simp, ha, by simp [modifyNode, hp, ha], by simp [modifyNode]⟩
    · simp only [findNode, ha, Bool.false_eq_true, if_false, Option.map_eq_some'] at hi
      obtain ⟨j, hj, rfl⟩ := hi
      obtain ⟨b, hb1, hb2, hb3, hb4⟩ := ih j hj
      exact ⟨b, by simpa using hb1, hb2, by simp [modifyNode, ha, hb3], by simpa [modifyNode] using hb4⟩

theorem indexNode_spec {α : Type} (p : α → Bool) (f : α → α) (fresh : α)
    (hp : ∀ a, p (f a) = p a) (hfresh : p fresh = true) (l : List α) :
    ∃ a, (indexNode p fresh l).1.get? (indexNode p fresh l).2 = some a ∧ p a = true
      ∧ findNode p (indexNode p fresh l).1 = some (indexNode p fresh l).2
      ∧ (modifyNode f (indexNode p fresh l).2 (indexNode p fresh l).1).find? p = some (f a)
      ∧ (modifyNode f (indexNode p fresh l).2 (indexNode p fresh l).1).get?
          (indexNode p fresh l).2 = some (f a) := by
  unfold indexNode
  cases h : findNode p l with
  | some i =>
    obtain ⟨a, h1, h2, h3, h4⟩ := find?_modifyNode_of_findNode p f hp l i h
    exact ⟨a, h1, h2, h, h3, h4⟩
  | none =>
    have h5 := findNode_append_fresh p fresh hfresh l h
    obtain ⟨a, h1, h2, h3, h4⟩ := find?_modifyNode_of_findNode p f hp _ _ h5
    exact ⟨a, h1, h2, h5, h3, h4⟩

theorem indexNode_of_findNode {α : Type} (p : α → Bool) (fresh : α) (l : List α) (i : Nat)
    (h : findNode p l = some i) : indexNode p fresh l = (l, i) := by
  simp [indexNode, h]

/-! ## The store -/

theorem keysIndex_after_assign (w : Collaborators) (m : Memory) (keys : List KeyNode) (key : View) :
    keysIndex w m (modifyNode (fun n => { n with owned := key.read m })
        (keysIndex w m keys key).2 (keysIndex w m keys key).1) key
      = (modifyNode (fun n => { n with owned := key.read m })
          (keysIndex w m keys key).2 (keysIndex w m keys key).1, (keysIndex w m keys key).2)
    ∧ ownedAt (modifyNode (fun n => { n with owned := key.read m })
        (keysIndex w m keys key).2 (keysIndex w m keys key).1) (keysIndex w m keys key).2
      = some (key.read m) := by
  obtain ⟨a, -, -, h3, -, h5⟩ := indexNode_spec (keyMatches w m (key.read m))
    (fun n => { n with owned := key.read m })
    { key := key, code := w.hash (key.read m), owned := [] } (fun _ => rfl)
    (by simp [keyMatches]) keys
  constructor
  · unfold keysIndex
    apply indexNode_of_findNode
    rw [findNode_modifyNode (keyMatches w m (key.read m))
      (fun n => { n with owned := key.read m }) (fun _ => rfl)]
    exact h3
  · unfold keysIndex ownedAt
    rw [h5]
    rfl

/-- After a store the cache answers a lookup by the content of the key with the stored list. -/
theorem cache_find (w : Collaborators) (m : Memory) (s : TextShaper) (key : View)
    (gp : GlyphPositionList) : (s.cache w m key gp).1.find w (key.read m) = some gp := by
  obtain ⟨h1, h2⟩ := keysIndex_after_assign w m s.cacheKeys_ key
  simp only [TextShaper.cache, TextShaper.find, h1]
  obtain ⟨a, -, -, -, h4, -⟩ := indexNode_spec
    (cacheMatches w (modifyNode (fun n => { n with owned := key.read m })
        (keysIndex w m s.cacheKeys_ key).2 (keysIndex w m s.cacheKeys_ key).1) (key.read m))
    (fun n => { n with value := gp })
    { keyNode := (keysIndex w m s.cacheKeys_ key).2, code := w.hash (key.read m), value := [] }
    (fun _ => rfl) (by simp [cacheMatches, h2]) s.cache_
  simp only [cacheIndex, h2, Option.getD_some]
  rw [h4]
  rfl

theorem cache_snd (w : Collaborators) (m : Memory) (s : TextShaper) (key : View)
    (gp : GlyphPositionList) : (s.cache w m key gp).2 = gp := rfl

/-- A hit leaves the state as it is and returns the list found. -/
theorem shape_hit (w : Collaborators) (m : Memory) (s : TextShaper) (fonts : FontList)
    (size codepoints clusters : Nat) (cached : GlyphPositionList)
    (h : s.find w (View.read m { data := codepoints, size := size }) = some cached) :
    s.shape w m fonts size codepoints clusters = (s, cached) := by
  simp [TextShaper.shape, h]

/-- Whatever path a call takes, the list it returns is afterwards found under the run. -/
theorem shape_find (w : Collaborators) (m : Memory) (s : TextShaper) (fonts : FontList)
    (size codepoints clusters : Nat) :
    (s.shape w m fonts size codepoints clusters).1.find w
        (View.read m { data := codepoints, size := size })
      = some (s.shape w m fonts size codepoints clusters).2 := by
  cases h : s.find w (View.read m { data := codepoints, size := size }) with
  | some cached => rw [shape_hit w m s fonts size codepoints clusters cached h]; exact h
  | none =>
    simp only [TextShaper.shape, h]
    split
    · rw [cache_find, cache_snd]
    · split
      · rw [cache_find, cache_snd]
      · rw [cache_find, cache_snd]

/-- The list and the flag of an attempt depend neither on the state nor on `_result`. -/
theorem shapeFont_snd (w : Collaborators) (m : Memory) (s : TextShaper)
    (size codepoints clusters font : Nat) (r : GlyphPositionList) :
    (s.shapeFont w m size codepoints clusters font r).2
      = directAttempt w m size codepoints clusters font := rfl

theorem handleFor_frame (s : TextShaper) (font : Nat) :
    (s.handleFor font).1.shaped = s.shaped ∧ (s.handleFor font).1.cache_ = s.cache_
      ∧ (s.handleFor font).1.cacheKeys_ = s.cacheKeys_
      ∧ (s.handleFor font).1.destroyed = s.destroyed := by
  unfold TextShaper.handleFor
  split <;> exact ⟨rfl, rfl, rfl, rfl⟩

/-- An attempt appends its font to the record of engine calls and leaves both caches alone. -/
theorem shapeFont_frame (w : Collaborators) (m : Memory) (s : TextShaper)
    (size codepoints clusters font : Nat) (r : GlyphPositionList) :
    (s.shapeFont w m size codepoints clusters font r).1.shaped.map Prod.fst
        = s.shaped.map Prod.fst ++ [font]
      ∧ (s.shapeFont w m size codepoints clusters font r).1.cache_ = s.cache_
      ∧ (s.shapeFont w m size codepoints clusters font r).1.cacheKeys_ = s.cacheKeys_ := by
  obtain ⟨h1, h2, h3, -⟩ := handleFor_frame s font
  refine ⟨?_, ?_, ?_⟩ <;> simp [TextShaper.shapeFont, h1, h2, h3]

/-- The store touches neither the record of engine calls nor the handles. -/
theorem cache_frame (w : Collaborators) (m : Memory) (s : TextShaper) (key : View)
    (gp : GlyphPositionList) :
    (s.cache w m key gp).1.shaped = s.shaped ∧ (s.cache w m key gp).1.hb_fonts_ = s.hb_fonts_
      ∧ (s.cache w m key gp).1.created = s.created
      ∧ (s.cache w m key gp).1.destroyed = s.destroyed := ⟨rfl, rfl, rfl, rfl⟩

/-- The fallback loop when no fallback succeeds: every fallback was attempted, in order. -/
theorem tryFallbacks_all_fail (w : Collaborators) (m : Memory) (size codepoints clusters : Nat)
    (fs : List Nat)
    (hfail : ∀ g ∈ fs, (directAttempt w m size codepoints clusters g).2 = false)
    (s : TextShaper) (gp : GlyphPositionList) :
    (TextShaper.tryFallbacks w m size codepoints clusters s fs gp).2.2 = false
      ∧ (TextShaper.tryFallbacks w m size codepoints clusters s fs gp).1.shaped.map Prod.fst
          = s.shaped.map Prod.fst ++ fs
      ∧ (TextShaper.tryFallbacks w m size codepoints clusters s fs gp).1.cache_ = s.cache_
      ∧ (TextShaper.tryFallbacks w m size codepoints clusters s fs gp).1.cacheKeys_
          = s.cacheKeys_ := by
  induction fs generalizing s gp with
  | nil => simp [TextShaper.tryFallbacks]
  | cons f rest ih =>
    have hf : (s.shapeFont w m size codepoints clusters f gp).2.2 = false := by
      rw [shapeFont_snd]; exact hfail f (List.mem_cons_self _ _)
    obtain ⟨h1, h2, h3⟩ := shapeFont_frame w m s size codepoints clusters f gp
    obtain ⟨i1, i2, i3, i4⟩ := ih (fun g hg => hfail g (List.mem_cons_of_mem _ hg))
      (s.shapeFont w m size codepoints clusters f gp).1
      (s.shapeFont w m size codepoints clusters f gp).2.1
    simp only [TextShaper.tryFallbacks, hf, Bool.false_eq_true, if_false]
    refine ⟨i1, ?_, ?_, ?_⟩
    · rw [i2, h1]; simp
    · rw [i3, h2]
    · rw [i4, h3]

/-- The fallback loop when the fallback at position `k` is the first to succeed: the loop
returns the list of that attempt and has attempted exactly the fallbacks up to it. -/
theorem tryFallbacks_first (w : Collaborators) (m : Memory) (size codepoints clusters : Nat)
    (fs : List Nat) (k f : Nat) (hk : fs.get? k = some f)
    (hsucc : (directAttempt w m size codepoints clusters f).2 = true)
    (hfail : ∀ g ∈ fs.take k, (directAttempt w m size codepoints clusters g).2 = false)
    (s : TextShaper) (gp : GlyphPositionList) :
    (TextShaper.tryFallbacks w m size codepoints clusters s fs gp).2
        = ((directAttempt w m size codepoints clusters f).1, true)
      ∧ (TextShaper.tryFallbacks w m size codepoints clusters s fs gp).1.shaped.map Prod.fst
          = s.shaped.map Prod.fst ++ fs.take (k + 1)
      ∧ (TextShaper.tryFallbacks w m size codepoints clusters s fs gp).1.cache_ = s.cache_
      ∧ (TextShaper.tryFallbacks w m size codepoints clusters s fs gp).1.cacheKeys_
          = s.cacheKeys_ := by
  induction fs generalizing s gp k with
  | nil => simp at hk
  | cons g rest ih =>
    obtain ⟨h1, h2, h3⟩ := shapeFont_frame w m s size codepoints clusters g gp
    cases k with
    | zero =>
      simp only [List.get?_cons_zero, Option.some.injEq] at hk
      subst hk
      have hf : (s.shapeFont w m size codepoints clusters g gp).2.2 = true := by
        rw [shapeFont_snd]; exact hsucc
      simp only [TextShaper.tryFallbacks, hf, if_true]
      refine ⟨?_, ?_, h2, h3⟩
      · rw [shapeFont_snd]
      · rw [h1]; simp
    | succ k =>
      simp only [List.get?_cons_succ] at hk
      have hf : (s.shapeFont w m size codepoints clusters g gp).2.2 = false := by
        rw [shapeFont_snd]; exact hfail g (by simp)
      obtain ⟨i1, i2, i3, i4⟩ := ih k hk
        (fun x hx => hfail x (by simp only [List.take_succ_cons]; exact List.mem_cons_of_mem _ hx))
        (s.shapeFont w m size codepoints clusters g gp).1
        (s.shapeFont w m size codepoints clusters g gp).2.1
      simp only [TextShaper.tryFallbacks, hf, Bool.false_eq_true, if_false]
      refine ⟨i1, ?_, ?_, ?_⟩
      · rw [i2, h1]; simp
      · rw [i3, h2]
      · rw [i4, h3]

/-! ## Fallback resolution -/

/-- C2. Fallback ordering, first success wins: on a cache miss, when `f` at position `k` of
the sequence primary, fallbacks is the first font whose attempt succeeds, `shape` returns the
list of the direct attempt against `f` (from any state and with any prior `_result`), and the
fonts attempted by the call are exactly the first `k + 1` fonts of the sequence, in order. -/
theorem shape_first_success (w : Collaborators) (m : Memory) (s : TextShaper) (fonts : FontList)
    (size codepoints clusters k f : Nat)
    (hmiss : s.find w (View.read m { data := codepoints, size := size }) = none)
    (hk : (fonts.1 :: fonts.2).get? k = some f)
    (hsucc : (directAttempt w m size codepoints clusters f).2 = true)
    (hfail : ∀ g ∈ (fonts.1 :: fonts.2).take k,
      (directAttempt w m size codepoints clusters g).2 = false) :
    (s.shape w m fonts size codepoints clusters).2
        = (directAttempt w m size codepoints clusters f).1
      ∧ (∀ (s0 : TextShaper) (r0 : GlyphPositionList),
          (s.shape w m fonts size codepoints clusters).2
            = (s0.shapeFont w m size codepoints clusters f r0).2.1)
      ∧ (s.shape w m fonts size codepoints clusters).1.shaped.map Prod.fst
          = s.shaped.map Prod.fst ++ (fonts.1 :: fonts.2).take (k + 1) := by
  have key : (s.shape w m fonts size codepoints clusters).2
        = (directAttempt w m size codepoints clusters f).1
      ∧ (s.shape w m fonts size codepoints clusters).1.shaped.map Prod.fst
          = s.shaped.map Prod.fst ++ (fonts.1 :: fonts.2).take (k + 1) := by
    obtain ⟨h1, -, -⟩ := shapeFont_frame w m s size codepoints clusters fonts.1 []
    cases k with
    | zero =>
      simp only [List.get?_cons_zero, Option.some.injEq] at hk
      subst hk
      have hf : (s.shapeFont w m size codepoints clusters fonts.1 []).2.2 = true := by
        rw [shapeFont_snd]; exact hsucc
      simp only [TextShaper.shape, hmiss, hf, if_true]
      refine ⟨by rw [cache_snd, shapeFont_snd], ?_⟩
      rw [(cache_frame w m _ _ _).1, h1]; simp
    | succ k =>
      simp only [List.get?_cons_succ] at hk
      have hf : (s.shapeFont w m size codepoints clusters fonts.1 []).2.2 = false := by
        rw [shapeFont_snd]; exact hfail fonts.1 (by simp)
      obtain ⟨i1, i2, -, -⟩ := tryFallbacks_first w m size codepoints clusters fonts.2 k f hk
        hsucc
        (fun x hx => hfail x (by simp only [List.take_succ_cons]; exact List.mem_cons_of_mem _ hx))
        (s.shapeFont w m size codepoints clusters fonts.1 []).1
        (s.shapeFont w m size codepoints clusters fonts.1 []).2.1
      have i3 : (TextShaper.tryFallbacks w m size codepoints clusters
          (s.shapeFont w m size codepoints clusters fonts.1 []).1 fonts.2
          (s.shapeFont w m size codepoints clusters fonts.1 []).2.1).2.2 = true := by rw [i1]
      simp only [TextShaper.shape, hmiss, hf, i3, Bool.false_eq_true, if_false, if_true]
      refine ⟨by rw [cache_snd, i1], ?_⟩
      rw [(cache_frame w m _ _ _).1, i2, h1]; simp
  exact ⟨key.1, fun s0 r0 => by rw [key.1, shapeFont_snd], key.2⟩

/-- C2 at a concrete input: the primary font `1` and the fallback `2` lack `B`, the fallback
`3` covers the run; the result is the direct attempt against `3` and the fonts were attempted
in the order 1, 2, 3. -/
theorem shape_first_success_witness :
    (TextShaper.new.shape exampleWorld memoryAB (1, [2, 3]) 2 0 10).2
        = (directAttempt exampleWorld memoryAB 2 0 10 3).1
      ∧ (TextShaper.new.shape exampleWorld memoryAB (1, [2, 3]) 2 0 10).1.shaped.map Prod.fst
          = [1, 2, 3] :=
  have h := shape_first_success exampleWorld memoryAB TextShaper.new (1, [2, 3]) 2 0 10 2 3
    (by decide) (by decide) (by decide) (by decide)
  ⟨h.1, h.2.2⟩

/-! ## The missing-glyph patcher and the recovery path -/

theorem emitGlyphs_font (maxAdvance : Int) (font : Nat) (gs : List HbGlyph) (cx cy : Nat) :
    ∀ gp ∈ emitGlyphs maxAdvance font cx cy gs, gp.font = font := by
  induction gs generalizing cx cy with
  | nil => simp [emitGlyphs]
  | cons g gs ih =>
    intro gp hgp
    simp only [emitGlyphs, List.mem_cons] at hgp
    rcases hgp with rfl | hgp
    · rfl
    · exact ih _ _ gp hgp

theorem directAttempt_font (w : Collaborators) (m : Memory) (size codepoints clusters font : Nat) :
    ∀ gp ∈ (directAttempt w m size codepoints clusters font).1, gp.font = font :=
  emitGlyphs_font _ _ _ _ _

theorem directAttempt_flag (w : Collaborators) (m : Memory) (size codepoints clusters font : Nat) :
    (directAttempt w m size codepoints clusters font).2
      = !((directAttempt w m size codepoints clusters font).1.any glyphMissing) := rfl

/-- The patcher rewrites position by position. -/
theorem replaceMissingGlyphs_get? (w : Collaborators) (font : Nat) (l : GlyphPositionList)
    (hr : w.FT_Get_Char_Index font 0xFFFD ≠ 0) (i : Nat) :
    (replaceMissingGlyphs w font l).get? i
      = (l.get? i).map (fun gp =>
          if glyphMissing gp then { gp with glyphIndex := w.FT_Get_Char_Index font 0xFFFD }
          else gp) := by
  simp [replaceMissingGlyphs, hr]

theorem replaceMissingGlyphs_of_zero (w : Collaborators) (font : Nat) (l : GlyphPositionList)
    (hr : w.FT_Get_Char_Index font 0xFFFD = 0) : replaceMissingGlyphs w font l = l := by
  simp [replaceMissingGlyphs, hr]

theorem replaceMissingGlyphs_font (w : Collaborators) (font : Nat) (l : GlyphPositionList) :
    ∀ gp ∈ replaceMissingGlyphs w font l, ∃ gp0 ∈ l, gp.font = gp0.font := by
  intro gp hgp
  by_cases hr : w.FT_Get_Char_Index font 0xFFFD = 0
  · rw [replaceMissingGlyphs_of_zero w font l hr] at hgp
    exact ⟨gp, hgp, rfl⟩
  · simp only [replaceMissingGlyphs, ne_eq, hr, not_false_eq_true, if_true, List.mem_map] at hgp
    obtain ⟨gp0, h0, rfl⟩ := hgp
    refine ⟨gp0, h0, ?_⟩
    split <;> rfl

/-- The recovery path: on a miss where every attempt fails, the call attempts the primary
font, every fallback in order and the primary font once more, and returns the patched list of
the attempt against the primary font. -/
theorem shape_all_fail (w : Collaborators) (m : Memory) (s : TextShaper) (fonts : FontList)
    (size codepoints clusters : Nat)
    (hmiss : s.find w (View.read m { data := codepoints, size := size }) = none)
    (hfail : ∀ g ∈ fonts.1 :: fonts.2, (directAttempt w m size codepoints clusters g).2 = false) :
    (s.shape w m fonts size codepoints clusters).2
        = replaceMissingGlyphs w fonts.1 (directAttempt w m size codepoints clusters fonts.1).1
      ∧ (s.shape w m fonts size codepoints clusters).1.shaped.map Prod.fst
          = s.shaped.map Prod.fst ++ (fonts.1 :: fonts.2) ++ [fonts.1] := by
  have hf : (s.shapeFont w m size codepoints clusters fonts.1 []).2.2 = false := by
    rw [shapeFont_snd]; exact hfail fonts.1 (by simp)
  obtain ⟨h1, -, -⟩ := shapeFont_frame w m s size codepoints clusters fonts.1 []
  obtain ⟨i1, i2, -, -⟩ := tryFallbacks_all_fail w m size codepoints clusters fonts.2
    (fun g hg => hfail g (List.mem_cons_of_mem _ hg))
    (s.shapeFont w m size codepoints clusters fonts.1 []).1
    (s.shapeFont w m size codepoints clusters fonts.1 []).2.1
  simp only [TextShaper.shape, hmiss, hf, i1, Bool.false_eq_true, if_false]
  refine ⟨by rw [cache_snd, shapeFont_snd], ?_⟩
  rw [(cache_frame w m _ _ _).1, (shapeFont_frame w m _ size codepoints clusters fonts.1 _).1,
    i2, h1]
  simp

/-- C3 as stated fails. Fonts `1` and `2` both lack `B`, so neither covers the run `A B`, and
font `1` maps U+FFFD to glyph `7`; the list returned by `shape` has the glyph indices `65, 7`:
the glyph the primary font does have is kept, so not every glyph index equals `7`. -/
theorem total_failure_keeps_covered_glyphs :
    (directAttempt exampleWorld memoryAB 2 0 10 1).1.any glyphMissing = true
      ∧ (directAttempt exampleWorld memoryAB 2 0 10 2).1.any glyphMissing = true
      ∧ TextShaper.new.find exampleWorld (View.read memoryAB { data := 0, size := 2 }) = none
      ∧ exampleWorld.FT_Get_Char_Index 1 0xFFFD = 7
      ∧ (TextShaper.new.shape exampleWorld memoryAB (1, [2]) 2 0 10).2.map
          (fun gp => gp.glyphIndex) = [65, 7]
      ∧ ¬ (∀ gp ∈ (TextShaper.new.shape exampleWorld memoryAB (1, [2]) 2 0 10).2,
            gp.glyphIndex = 7) := by
  decide

/-- C3, amended. Total-failure substitution: on a miss where no font covers the run and the
primary font maps U+FFFD to a nonzero index `r`, the returned list has no glyph index 0, it
has one record per record of the attempt against the primary font, and at every position its
glyph index is `r` where that attempt has 0 and the index of that attempt elsewhere. -/
theorem shape_total_failure_patched (w : Collaborators) (m : Memory) (s : TextShaper)
    (fonts : FontList) (size codepoints clusters : Nat)
    (hmiss : s.find w (View.read m { data := codepoints, size := size }) = none)
    (hfail : ∀ g ∈ fonts.1 :: fonts.2, (directAttempt w m size codepoints clusters g).2 = false)
    (hr : w.FT_Get_Char_Index fonts.1 0xFFFD ≠ 0) :
    (∀ gp ∈ (s.shape w m fonts size codepoints clusters).2, gp.glyphIndex ≠ 0)
      ∧ (s.shape w m fonts size codepoints clusters).2.length
          = (directAttempt w m size codepoints clusters fonts.1).1.length
      ∧ ∀ (i : Nat) (gp : GlyphPosition),
          (directAttempt w m size codepoints clusters fonts.1).1.get? i = some gp →
          ((s.shape w m fonts size codepoints clusters).2.get? i).map (fun q => q.glyphIndex)
            = some (if gp.glyphIndex = 0 then w.FT_Get_Char_Index fonts.1 0xFFFD
                else gp.glyphIndex) := by
  rw [(shape_all_fail w m s fonts size codepoints clusters hmiss hfail).1]
  refine ⟨?_, ?_, ?_⟩
  · intro gp hgp
    simp only [replaceMissingGlyphs, ne_eq, hr, not_false_eq_true, if_true, List.mem_map] at hgp
    obtain ⟨gp0, -, rfl⟩ := hgp
    by_cases h0 : gp0.glyphIndex = 0
    · simpa [glyphMissing, h0] using hr
    · simp [glyphMissing, h0]
  · simp [replaceMissingGlyphs, hr]
  · intro i gp hgp
    rw [replaceMissingGlyphs_get? w fonts.1 _ hr, hgp]
    by_cases h0 : gp.glyphIndex = 0 <;> simp [glyphMissing, h0]

/-- C3, amended, at a concrete input: the run `A B` with fonts `1` and `2`; position 1, where
the primary attempt has glyph 0, gets the replacement glyph `7`. -/
theorem shape_total_failure_patched_witness :
    ((TextShaper.new.shape exampleWorld memoryAB (1, [2]) 2 0 10).2.get? 1).map
        (fun q => q.glyphIndex) = some 7 :=
  (shape_total_failure_patched exampleWorld memoryAB TextShaper.new (1, [2]) 2 0 10
    (by decide) (by decide) (by decide)).2.2 1
    { font := 1, x := 9, y := 0, glyphIndex := 0, cluster := 1 } (by decide)

/-- C4. Contract of the patcher: when the font maps U+FFFD to a nonzero index `r`, the patched
list has the length of the list given, and its record at every position is the record given
with glyph index `r` if that index was 0 and unchanged otherwise; the font reference, x, y and
cluster of every record are as before. -/
theorem replaceMissingGlyphs_contract (w : Collaborators) (font : Nat) (l : GlyphPositionList)
    (hr : w.FT_Get_Char_Index font 0xFFFD ≠ 0) :
    (replaceMissingGlyphs w font l).length = l.length
      ∧ ∀ (i : Nat) (gp : GlyphPosition), l.get? i = some gp →
          (replaceMissingGlyphs w font l).get? i
            = some { font := gp.font, x := gp.x, y := gp.y,
                     glyphIndex := if gp.glyphIndex = 0 then w.FT_Get_Char_Index font 0xFFFD
                       else gp.glyphIndex,
                     cluster := gp.cluster } := by
  refine ⟨by simp [replaceMissingGlyphs, hr], ?_⟩
  intro i gp hgp
  rw [replaceMissingGlyphs_get? w font l hr, hgp]
  by_cases h0 : gp.glyphIndex = 0 <;> simp [glyphMissing, h0]

/-- C4 at a concrete list: the record with glyph index 0 gets index `7` and keeps its other
fields. -/
theorem replaceMissingGlyphs_contract_witness :
    exampleWorld.FT_Get_Char_Index 1 0xFFFD ≠ 0
      ∧ (replaceMissingGlyphs exampleWorld 1
          [{ font := 1, x := 0, y := 0, glyphIndex := 65, cluster := 0 },
           { font := 1, x := 8, y := 3, glyphIndex := 0, cluster := 1 }]).get? 1
        = some { font := 1, x := 8, y := 3, glyphIndex := 7, cluster := 1 } :=
  ⟨by decide, (replaceMissingGlyphs_contract exampleWorld 1
    [{ font := 1, x := 0, y := 0, glyphIndex := 65, cluster := 0 },
     { font := 1, x := 8, y := 3, glyphIndex := 0, cluster := 1 }] (by decide)).2 1
    { font := 1, x := 8, y := 3, glyphIndex := 0, cluster := 1 } rfl⟩

/-- C5. No replacement available: when the primary font maps U+FFFD to 0 the patcher returns
every list as it was given; so on a miss where no font covers the run, `shape` returns the
unpatched attempt against the primary font, and every position where that attempt has glyph
index 0 still has glyph index 0. -/
theorem shape_no_replacement (w : Collaborators) (m : Memory) (s : TextShaper)
    (fonts : FontList) (size codepoints clusters : Nat)
    (hmiss : s.find w (View.read m { data := codepoints, size := size }) = none)
    (hfail : ∀ g ∈ fonts.1 :: fonts.2, (directAttempt w m size codepoints clusters g).2 = false)
    (hr : w.FT_Get_Char_Index fonts.1 0xFFFD = 0) :
    (∀ l : GlyphPositionList, replaceMissingGlyphs w fonts.1 l = l)
      ∧ (s.shape w m fonts size codepoints clusters).2
          = (directAttempt w m size codepoints clusters fonts.1).1
      ∧ ∀ (i : Nat) (gp : GlyphPosition),
          (directAttempt w m size codepoints clusters fonts.1).1.get? i = some gp →
          gp.glyphIndex = 0 →
          ((s.shape w m fonts size codepoints clusters).2.get? i).map (fun q => q.glyphIndex)
            = some 0 := by
  have h := (shape_all_fail w m s fonts size codepoints clusters hmiss hfail).1
  rw [replaceMissingGlyphs_of_zero w fonts.1 _ hr] at h
  refine ⟨fun l => replaceMissingGlyphs_of_zero w fonts.1 l hr, h, ?_⟩
  intro i gp hgp h0
  rw [h, hgp]
  simp [h0]

/-- C5 at a concrete input: the run `A B` with primary font `2`, which has no replacement
glyph, and fallback `1`; position 1 keeps glyph index 0. -/
theorem shape_no_replacement_witness :
    (TextShaper.new.shape exampleWorld memoryAB (2, [1]) 2 0 10).2
        = (directAttempt exampleWorld memoryAB 2 0 10 2).1
      ∧ ((TextShaper.new.shape exampleWorld memoryAB (2, [1]) 2 0 10).2.get? 1).map
          (fun q => q.glyphIndex) = some 0 :=
  have h := shape_no_replacement exampleWorld memoryAB TextShaper.new (2, [1]) 2 0 10
    (by decide) (by decide) (by decide)
  ⟨h.2.1, h.2.2 1 { font := 2, x := 9, y := 0, glyphIndex := 0, cluster := 1 } (by decide)
    rfl⟩

/-- The attempt against a font reads the collaborators only through that font's advance and
the engine output for that font. -/
theorem directAttempt_congr (w w' : Collaborators) (m : Memory)
    (size codepoints clusters font : Nat)
    (hadv : w'.maxAdvance font = w.maxAdvance font)
    (hout : engineOutput w' font (hbInput m size codepoints clusters)
      = engineOutput w font (hbInput m size codepoints clusters)) :
    directAttempt w' m size codepoints clusters font
      = directAttempt w m size codepoints clusters font := by
  simp only [directAttempt, TextShaper.shapeFont, hadv, hout]

/-- C6. Total-failure recovery path: on a miss where the attempt against the primary font and
against every fallback fails, the list returned is the patcher applied to the attempt against
the primary font; it is the list stored under the run; every record of it references the
primary font; and it is the same for any other fallbacks, engine outputs for them and prior
state, provided the call is again a miss on which every attempt fails and the collaborators
agree on the primary font. -/
theorem shape_total_failure_recovery (w : Collaborators) (m : Memory) (s : TextShaper)
    (fonts : FontList) (size codepoints clusters : Nat)
    (hmiss : s.find w (View.read m { data := codepoints, size := size }) = none)
    (hfail : ∀ g ∈ fonts.1 :: fonts.2, (directAttempt w m size codepoints clusters g).2 = false) :
    (s.shape w m fonts size codepoints clusters).2
        = replaceMissingGlyphs w fonts.1 (directAttempt w m size codepoints clusters fonts.1).1
      ∧ (s.shape w m fonts size codepoints clusters).1.find w
            (View.read m { data := codepoints, size := size })
          = some (replaceMissingGlyphs w fonts.1
              (directAttempt w m size codepoints clusters fonts.1).1)
      ∧ (∀ gp ∈ (s.shape w m fonts size codepoints clusters).2, gp.font = fonts.1)
      ∧ ∀ (w' : Collaborators) (s' : TextShaper) (fallbacks' : List Nat),
          w'.maxAdvance fonts.1 = w.maxAdvance fonts.1 →
          w'.FT_Get_Char_Index fonts.1 0xFFFD = w.FT_Get_Char_Index fonts.1 0xFFFD →
          engineOutput w' fonts.1 (hbInput m size codepoints clusters)
            = engineOutput w fonts.1 (hbInput m size codepoints clusters) →
          s'.find w' (View.read m { data := codepoints, size := size }) = none →
          (∀ g ∈ fonts.1 :: fallbacks',
            (directAttempt w' m size codepoints clusters g).2 = false) →
          (s'.shape w' m (fonts.1, fallbacks') size codepoints clusters).2
            = (s.shape w m fonts size codepoints clusters).2 := by
  have h := (shape_all_fail w m s fonts size codepoints clusters hmiss hfail).1
  refine ⟨h, ?_, ?_, ?_⟩
  · rw [shape_find, h]
  · intro gp hgp
    rw [h] at hgp
    obtain ⟨gp0, h0, h1⟩ := replaceMissingGlyphs_font w fonts.1 _ gp hgp
    rw [h1]
    exact directAttempt_font w m size codepoints clusters fonts.1 gp0 h0
  · intro w' s' fallbacks' hadv hft hout hmiss' hfail'
    rw [h, (shape_all_fail w' m s' (fonts.1, fallbacks') size codepoints clusters hmiss'
      hfail').1]
    simp only [replaceMissingGlyphs, hft,
      directAttempt_congr w w' m size codepoints clusters fonts.1 hadv hout]

/-- C6 at a concrete input: the run `A B` with primary font `1` and fallback `2`; the list
returned is the patched attempt against font `1` and it is the list stored under `A B`. -/
theorem shape_total_failure_recovery_witness :
    (TextShaper.new.shape exampleWorld memoryAB (1, [2]) 2 0 10).2
        = replaceMissingGlyphs exampleWorld 1 (directAttempt exampleWorld memoryAB 2 0 10 1).1
      ∧ (TextShaper.new.shape exampleWorld memoryAB (1, [2]) 2 0 10).1.find exampleWorld
            (View.read memoryAB { data := 0, size := 2 })
          = some (replaceMissingGlyphs exampleWorld 1
              (directAttempt exampleWorld memoryAB 2 0 10 1).1) :=
  have h := shape_total_failure_recovery exampleWorld memoryAB TextShaper.new (1, [2]) 2 0 10
    (by decide) (by decide)
  ⟨h.1, h.2.1⟩

/-! ## Cursor arithmetic of the single-font attempt -/

theorem toUnsigned_cast (a : Int) : ((toUnsigned a : Nat) : Int) = a % (2 ^ 32 : Int) := by
  unfold toUnsigned
  exact Int.toNat_of_nonneg (Int.emod_nonneg _ (by norm_num))

theorem toUnsigned_add_left (a b : Int) :
    toUnsigned (((toUnsigned a : Nat) : Int) + b) = toUnsigned (a + b) := by
  rw [toUnsigned_cast]
  unfold toUnsigned
  rw [Int.emod_add_emod]

/-- The shift by 6 is the floor of the division by 64. -/
theorem shiftRight_six (z : Int) : Int.shiftRight z 6 = Int.fdiv z 64 := by
  have h := Int.shiftRight_eq_div_pow z 6
  rw [Int.shiftRight_eq] at h
  rw [h, Int.fdiv_eq_ediv z (by norm_num)]
  norm_num

/-- Closed form of the x of the record at position `i` for a loop started with cursor `cx`. -/
theorem emitGlyphs_x (maxAdvance : Int) (font : Nat) (gs : List HbGlyph) (cx cy i : Nat)
    (g : HbGlyph) (hg : gs.get? i = some g) :
    ((emitGlyphs maxAdvance font cx cy gs).get? i).map (fun q => q.x)
      = some (toUnsigned ((cx : Int)
          + maxAdvance * ((gs.take i).countP (fun h => decide (h.x_advance ≠ 0)) : Nat)
          + Int.fdiv g.x_offset 64)) := by
  induction gs generalizing cx cy i with
  | nil => simp at hg
  | cons g0 rest ih =>
    cases i with
    | zero =>
      simp only [List.get?_cons_zero, Option.some.injEq] at hg
      subst hg
      simp [emitGlyphs, shiftRight_six]
    | succ i =>
      simp only [List.get?_cons_succ] at hg
      simp only [emitGlyphs, List.get?_cons_succ, List.take_succ_cons, List.countP_cons]
      rw [ih _ _ i hg]
      by_cases h0 : g0.x_advance = 0
      · simp [h0]
      · simp only [ne_eq, h0, not_false_eq_true, if_true, decide_True, Nat.cast_add,
          Nat.cast_one]
        rw [add_assoc, toUnsigned_add_left]
        congr 2
        ring

/-- C7. Advance quantization: in a single-font attempt the x of the record at position `i`
is, in 32-bit unsigned arithmetic, `maxAdvance` times the number of engine glyphs before `i`
with a nonzero `x_advance`, plus the floor of `x_offset / 64` of glyph `i`. The engine's
advances enter only through being zero or not: a glyph with a nonzero advance moves the
cursor by `maxAdvance`, a glyph with a zero advance does not move it. -/
theorem shapeFont_x_quantized (w : Collaborators) (m : Memory) (s : TextShaper)
    (size codepoints clusters font : Nat) (r : GlyphPositionList) (i : Nat) (g : HbGlyph)
    (hg : (engineOutput w font (hbInput m size codepoints clusters)).get? i = some g) :
    ((s.shapeFont w m size codepoints clusters font r).2.1.get? i).map (fun q => q.x)
      = some (toUnsigned (w.maxAdvance font
          * ((((engineOutput w font (hbInput m size codepoints clusters)).take i).countP
              (fun h => decide (h.x_advance ≠ 0)) : Nat) : Int)
          + Int.fdiv g.x_offset 64)) := by
  have h := emitGlyphs_x (w.maxAdvance font) font
    (engineOutput w font (hbInput m size codepoints clusters)) 0 0 i g hg
  simp only [Nat.cast_zero, zero_add] at h
  exact h

/-- C7 at a concrete input: with `maxAdvance = 8` and engine advances of 700, the second
glyph of the run `A B` sits at `8 * 1 + 1`. -/
theorem shapeFont_x_quantized_witness :
    ((TextShaper.new.shapeFont exampleWorld memoryAB 2 0 10 3 []).2.1.get? 1).map
        (fun q => q.x) = some 9 :=
  shapeFont_x_quantized exampleWorld memoryAB TextShaper.new 2 0 10 3 [] 1
    { codepoint := 66, cluster := 1, x_offset := 64, y_offset := 0, x_advance := 700,
      y_advance := 0 } (by decide)

/-- C8. Success criterion: the single-font attempt returns true exactly when no record it
left in `_result` has glyph index 0; in particular it returns true when the engine reports no
glyph at all. -/
theorem shapeFont_success_iff (w : Collaborators) (m : Memory) (s : TextShaper)
    (size codepoints clusters font : Nat) (r : GlyphPositionList) :
    ((s.shapeFont w m size codepoints clusters font r).2.2 = true
        ↔ ∀ gp ∈ (s.shapeFont w m size codepoints clusters font r).2.1, gp.glyphIndex ≠ 0)
      ∧ (engineOutput w font (hbInput m size codepoints clusters) = [] →
          (s.shapeFont w m size codepoints clusters font r).2.1 = []
            ∧ (s.shapeFont w m size codepoints clusters font r).2.2 = true) := by
  constructor
  · simp [TextShaper.shapeFont, glyphMissing]
  · intro h
    simp [TextShaper.shapeFont, h, emitGlyphs]

/-- C8 at a concrete input: an empty run gives no engine glyph and the attempt succeeds. -/
theorem shapeFont_success_iff_witness :
    (TextShaper.new.shapeFont exampleWorld memoryAB 0 0 10 1 []).2.1 = []
      ∧ (TextShaper.new.shapeFont exampleWorld memoryAB 0 0 10 1 []).2.2 = true :=
  (shapeFont_success_iff exampleWorld memoryAB TextShaper.new 0 0 10 1 []).2 (by decide)

/-! ## Clearing and key ownership -/

/-- The body of `clearCache` leaves `cache_` and `cacheKeys_` as they are. -/
theorem clearCache_frame (s : TextShaper) :
    s.clearCache.cache_ = s.cache_ ∧ s.clearCache.cacheKeys_ = s.cacheKeys_
      ∧ s.clearCache.shaped = s.shaped ∧ s.clearCache.created = s.created := ⟨rfl, rfl, rfl, rfl⟩

/-- A lookup reads only the two cache containers. -/
theorem find_congr (w : Collaborators) (s t : TextShaper) (c : List Nat)
    (h1 : t.cache_ = s.cache_) (h2 : t.cacheKeys_ = s.cacheKeys_) : t.find w c = s.find w c := by
  simp [TextShaper.find, h1, h2]

/-- On a miss the call ends in a store made on a state whose cache containers are those the
call started with. -/
theorem shape_miss (w : Collaborators) (m : Memory) (s : TextShaper) (fonts : FontList)
    (size codepoints clusters : Nat)
    (hmiss : s.find w (View.read m { data := codepoints, size := size }) = none) :
    ∃ (t : TextShaper) (gp : GlyphPositionList),
      s.shape w m fonts size codepoints clusters
          = t.cache w m { data := codepoints, size := size } gp
        ∧ t.cache_ = s.cache_ ∧ t.cacheKeys_ = s.cacheKeys_ := by
  obtain ⟨-, h2, h3⟩ := shapeFont_frame w m s size codepoints clusters fonts.1 []
  simp only [TextShaper.shape, hmiss]
  split
  · exact ⟨_, _, rfl, h2, h3⟩
  · have hf : ∀ (fs : List Nat) (t : TextShaper) (gp : GlyphPositionList),
        (TextShaper.tryFallbacks w m size codepoints clusters t fs gp).1.cache_ = t.cache_
          ∧ (TextShaper.tryFallbacks w m size codepoints clusters t fs gp).1.cacheKeys_
              = t.cacheKeys_ := by
      intro fs
      induction fs with
      | nil => intro t gp; exact ⟨rfl, rfl⟩
      | cons f rest ih =>
        intro t gp
        obtain ⟨-, j2, j3⟩ := shapeFont_frame w m t size codepoints clusters f gp
        simp only [TextShaper.tryFallbacks]
        split
        · exact ⟨j2, j3⟩
        · obtain ⟨k2, k3⟩ := ih (t.shapeFont w m size codepoints clusters f gp).1
            (t.shapeFont w m size codepoints clusters f gp).2.1
          exact ⟨k2.trans j2, k3.trans j3⟩
    obtain ⟨i2, i3⟩ := hf fonts.2 (s.shapeFont w m size codepoints clusters fonts.1 []).1
      (s.shapeFont w m size codepoints clusters fonts.1 []).2.1
    split
    · exact ⟨_, _, rfl, i2.trans h2, i3.trans h3⟩
    · obtain ⟨-, j2, j3⟩ := shapeFont_frame w m
        (TextShaper.tryFallbacks w m size codepoints clusters
          (s.shapeFont w m size codepoints clusters fonts.1 []).1 fonts.2
          (s.shapeFont w m size codepoints clusters fonts.1 []).2.1).1
        size codepoints clusters fonts.1
        (TextShaper.tryFallbacks w m size codepoints clusters
          (s.shapeFont w m size codepoints clusters fonts.1 []).1 fonts.2
          (s.shapeFont w m size codepoints clusters fonts.1 []).2.1).2.1
      exact ⟨_, _, rfl, j2.trans (i2.trans h2), j3.trans (i3.trans h3)⟩

/-- On every state, `clearCache` followed by `shape` of a run shaped just before is a hit. -/
theorem clearCache_then_shape (w : Collaborators) (m : Memory) (s : TextShaper)
    (fonts : FontList) (size codepoints clusters : Nat) :
    (s.shape w m fonts size codepoints clusters).1.clearCache.shape w m fonts size
        codepoints clusters
      = ((s.shape w m fonts size codepoints clusters).1.clearCache,
          (s.shape w m fonts size codepoints clusters).2) := by
  apply shape_hit
  rw [find_congr w _ (s.shape w m fonts size codepoints clusters).1.clearCache _ rfl rfl]
  exact shape_find w m s fonts size codepoints clusters

theorem read_length (m : Memory) (v : View) : (v.read m).length = v.size := by
  simp [View.read]

/-- The first store made by a shaper leaves one node in each container. -/
theorem cache_on_empty (w : Collaborators) (m : Memory) (t : TextShaper) (key : View)
    (gp : GlyphPositionList) (h1 : t.cache_ = []) (h2 : t.cacheKeys_ = []) :
    (t.cache w m key gp).1.cache_
        = [{ keyNode := 0, code := w.hash (key.read m), value := gp }]
      ∧ (t.cache w m key gp).1.cacheKeys_
        = [{ key := key, code := w.hash (key.read m), owned := key.read m }] := by
  simp [TextShaper.cache, keysIndex, cacheIndex, indexNode, findNode, modifyNode, ownedAt,
    keyMatches, cacheMatches, h1, h2]

/-- The second store made through the same buffer, when its content is filed where the first
was: the node of the first key is found and both its string and its list are overwritten. -/
theorem cache_on_stale (w : Collaborators) (m : Memory) (t : TextShaper) (key : View)
    (gp gp0 : GlyphPositionList) (c0 : List Nat)
    (h1 : t.cache_ = [{ keyNode := 0, code := w.hash c0, value := gp0 }])
    (h2 : t.cacheKeys_ = [{ key := key, code := w.hash c0, owned := c0 }])
    (hh : w.hash (key.read m) = w.hash c0) :
    (t.cache w m key gp).1.cache_ = [{ keyNode := 0, code := w.hash c0, value := gp }]
      ∧ (t.cache w m key gp).1.cacheKeys_
        = [{ key := key, code := w.hash c0, owned := key.read m }] := by
  simp [TextShaper.cache, keysIndex, cacheIndex, indexNode, findNode, modifyNode, ownedAt,
    keyMatches, cacheMatches, h1, h2, hh]

/-- The second store when the node of the first key does not answer: a second node is added to
each container and the first entry stays. -/
theorem cache_on_other (w : Collaborators) (m : Memory) (t : TextShaper) (key key0 : View)
    (gp gp0 : GlyphPositionList) (c0 : List Nat)
    (h1 : t.cache_ = [{ keyNode := 0, code := w.hash c0, value := gp0 }])
    (h2 : t.cacheKeys_ = [{ key := key0, code := w.hash c0, owned := c0 }])
    (hk : keyMatches w m (key.read m) { key := key0, code := w.hash c0, owned := c0 } = false)
    (hc : c0 ≠ key.read m) :
    (t.cache w m key gp).1.cache_
        = [{ keyNode := 0, code := w.hash c0, value := gp0 },
           { keyNode := 1, code := w.hash (key.read m), value := gp }]
      ∧ (t.cache w m key gp).1.cacheKeys_
        = [{ key := key0, code := w.hash c0, owned := c0 },
           { key := key, code := w.hash (key.read m), owned := key.read m }] := by
  have hfresh : ∀ o : List Nat, keyMatches w m (key.read m)
      { key := key, code := w.hash (key.read m), owned := o } = true := by
    intro o; simp [keyMatches]
  have k1 : keysIndex w m t.cacheKeys_ key
      = ([{ key := key0, code := w.hash c0, owned := c0 },
          { key := key, code := w.hash (key.read m), owned := [] }], 1) := by
    simp [keysIndex, indexNode, findNode, h2, hk]
  have k3 : keysIndex w m [{ key := key0, code := w.hash c0, owned := c0 },
        { key := key, code := w.hash (key.read m), owned := key.read m }] key
      = ([{ key := key0, code := w.hash c0, owned := c0 },
          { key := key, code := w.hash (key.read m), owned := key.read m }], 1) := by
    simp [keysIndex, indexNode, findNode, hk, hfresh]
  simp only [TextShaper.cache, k1, modifyNode, k3]
  simp [cacheIndex, indexNode, findNode, modifyNode, ownedAt, cacheMatches, h1, hc]

/-- Buffer reuse on a fresh shaper, in general: a run is shaped from a buffer, the buffer is
overwritten with a different run and shaped again. The entry of the first run is lost exactly
when the second run has the same length and is filed under the same hash code; otherwise the
first run is still found with its list. -/
theorem buffer_reuse_on_fresh_shaper (w : Collaborators) (m m' : Memory) (fonts : FontList)
    (size size' codepoints clusters : Nat)
    (hne : View.read m { data := codepoints, size := size }
      ≠ View.read m' { data := codepoints, size := size' }) :
    ((TextShaper.new.shape w m fonts size codepoints clusters).1.shape w m' fonts size'
        codepoints clusters).1.find w (View.read m { data := codepoints, size := size })
      = if size' = size ∧ w.hash (View.read m' { data := codepoints, size := size' })
            = w.hash (View.read m { data := codepoints, size := size })
        then none else some (TextShaper.new.shape w m fonts size codepoints clusters).2 := by
  obtain ⟨t, gp, e1, e2, e3⟩ := shape_miss w m TextShaper.new fonts size codepoints clusters rfl
  obtain ⟨a1, a2⟩ := cache_on_empty w m t { data := codepoints, size := size } gp e2 e3
  have hgp : (TextShaper.new.shape w m fonts size codepoints clusters).2 = gp := by
    rw [e1, cache_snd]
  rw [← e1] at a1 a2
  have hmiss2 : (TextShaper.new.shape w m fonts size codepoints clusters).1.find w
      (View.read m' { data := codepoints, size := size' }) = none := by
    simp [TextShaper.find, a1, a2, cacheMatches, ownedAt, hne]
  obtain ⟨t2, gp2, f1, f2, f3⟩ := shape_miss w m'
    (TextShaper.new.shape w m fonts size codepoints clusters).1 fonts size' codepoints clusters
    hmiss2
  rw [f1, hgp]
  rw [a1] at f2
  rw [a2] at f3
  by_cases hcase : size' = size ∧ w.hash (View.read m' { data := codepoints, size := size' })
      = w.hash (View.read m { data := codepoints, size := size })
  · obtain ⟨hs, hh⟩ := hcase
    subst hs
    obtain ⟨b1, b2⟩ := cache_on_stale w m' t2 { data := codepoints, size := size' } gp2 gp _
      f2 f3 hh
    simp [TextShaper.find, b1, b2, cacheMatches, ownedAt, hh, Ne.symm hne]
  · have hk : keyMatches w m' (View.read m' { data := codepoints, size := size' })
        { key := { data := codepoints, size := size },
          code := w.hash (View.read m { data := codepoints, size := size }),
          owned := View.read m { data := codepoints, size := size } } = false := by
      by_cases hs : size' = size
      · have hh : ¬ w.hash (View.read m { data := codepoints, size := size })
            = w.hash (View.read m' { data := codepoints, size := size' }) :=
          fun h => hcase ⟨hs, h.symm⟩
        simp [keyMatches, hh]
      · have hl : View.read m' { data := codepoints, size := size }
            ≠ View.read m' { data := codepoints, size := size' } := by
          intro h
          have := congrArg List.length h
          rw [read_length, read_length] at this
          exact hs this.symm
        simp [keyMatches, hl]
    obtain ⟨b1, b2⟩ := cache_on_other w m' t2 { data := codepoints, size := size' }
      { data := codepoints, size := size } gp2 gp _ f2 f3 hk hne
    simp [TextShaper.find, b1, b2, cacheMatches, ownedAt, hcase]

/-- C9 evaluated on the code: after `shape` has cached the run `A B`, one or two calls of
`clearCache` leave the entry and the owned key copy in place, the run is still found with the
list cached before, and the next `shape` of the run returns that list without any attempt
against the primary font. -/
theorem clearCache_keeps_shape_cache :
    shapedAB.1.cache_.length = 1
      ∧ shapedAB.1.clearCache.cache_ = shapedAB.1.cache_
      ∧ shapedAB.1.clearCache.cacheKeys_ = shapedAB.1.cacheKeys_
      ∧ shapedAB.1.clearCache.clearCache.cache_ = shapedAB.1.cache_
      ∧ shapedAB.1.clearCache.clearCache.cacheKeys_ = shapedAB.1.cacheKeys_
      ∧ shapedAB.1.clearCache.hb_fonts_ = []
      ∧ shapedAB.1.clearCache.find exampleWorld [65, 66] = some shapedAB.2
      ∧ (shapedAB.1.clearCache.shape exampleWorld memoryAB (3, []) 2 0 10).2 = shapedAB.2
      ∧ (shapedAB.1.clearCache.shape exampleWorld memoryAB (3, []) 2 0 10).1.shaped
          = shapedAB.1.shaped := by
  decide

/-! ## Handle release -/

/-- C13. Handle release is complete and idempotent: `clearCache` passes the handle of every
entry of `hb_fonts_` to `hb_font_destroy`, once per entry and nothing else, and leaves
`hb_fonts_` empty; a second `clearCache` right after it destroys nothing and leaves the state
as it is. -/
theorem clearCache_releases_handles (s : TextShaper) :
    s.clearCache.destroyed = s.destroyed ++ s.hb_fonts_.map (fun e => e.2)
      ∧ (∀ h : Nat, s.clearCache.destroyed.count h
          = s.destroyed.count h + (s.hb_fonts_.map (fun e => e.2)).count h)
      ∧ s.clearCache.hb_fonts_ = []
      ∧ s.clearCache.clearCache.destroyed = s.clearCache.destroyed
      ∧ s.clearCache.clearCache = s.clearCache := by
  refine ⟨rfl, fun h => ?_, rfl, ?_, ?_⟩
  · simp [TextShaper.clearCache]
  · simp [TextShaper.clearCache]
  · simp [TextShaper.clearCache]

/-! ## The list of a single-font attempt -/

theorem emitGlyphs_entries (maxAdvance : Int) (font : Nat) (gs : List HbGlyph) (cx cy : Nat) :
    (emitGlyphs maxAdvance font cx cy gs).map (fun q => (q.font, q.glyphIndex, q.cluster))
      = gs.map (fun g => (font, g.codepoint, g.cluster)) := by
  induction gs generalizing cx cy with
  | nil => rfl
  | cons g gs ih => simp [emitGlyphs, ih]

/-- C15. A single-font attempt produces its list fresh: the list on exit does not depend on
what `_result` held on entry; it has one record per glyph the engine reports, in the order of
the engine, and the record at each position carries the font attempted, the glyph index of
the engine and the cluster of the engine at that position. -/
theorem shapeFont_list_fresh (w : Collaborators) (m : Memory) (s : TextShaper)
    (size codepoints clusters font : Nat) (r : GlyphPositionList) :
    (∀ r0 : GlyphPositionList, (s.shapeFont w m size codepoints clusters font r).2.1
        = (s.shapeFont w m size codepoints clusters font r0).2.1)
      ∧ (s.shapeFont w m size codepoints clusters font r).2.1.length
          = (engineOutput w font (hbInput m size codepoints clusters)).length
      ∧ (s.shapeFont w m size codepoints clusters font r).2.1.map
            (fun q => (q.font, q.glyphIndex, q.cluster))
          = (engineOutput w font (hbInput m size codepoints clusters)).map
            (fun g => (font, g.codepoint, g.cluster)) := by
  have h := emitGlyphs_entries (w.maxAdvance font) font
    (engineOutput w font (hbInput m size codepoints clusters)) 0 0
  refine ⟨fun _ => rfl, ?_, h⟩
  have hl := congrArg List.length h
  simpa using hl

/-- Closed form of the y of the record at position `i` for a loop started with cursor `cy`. -/
theorem emitGlyphs_y (maxAdvance : Int) (font : Nat) (gs : List HbGlyph) (cx cy i : Nat)
    (g : HbGlyph) (hg : gs.get? i = some g) :
    ((emitGlyphs maxAdvance font cx cy gs).get? i).map (fun q => q.y)
      = some (toUnsigned ((cy : Int)
          + ((gs.take i).map (fun h => Int.fdiv h.y_advance 64)).sum
          + Int.fdiv g.y_offset 64)) := by
  induction gs generalizing cx cy i with
  | nil => simp at hg
  | cons g0 rest ih =>
    cases i with
    | zero =>
      simp only [List.get?_cons_zero, Option.some.injEq] at hg
      subst hg
      simp [emitGlyphs, shiftRight_six]
    | succ i =>
      simp only [List.get?_cons_succ] at hg
      simp only [emitGlyphs, List.get?_cons_succ, List.take_succ_cons, List.map_cons,
        List.sum_cons]
      rw [ih _ _ i hg, add_assoc, toUnsigned_add_left, shiftRight_six]
      congr 2
      ring

/-- C16. Vertical accumulation: in a single-font attempt the y of the record at position `i`
is, in 32-bit unsigned arithmetic, the sum over the engine glyphs before `i` of the floor of
`y_advance / 64`, plus the floor of `y_offset / 64` of glyph `i`. Every advance is floored
before it is added, and `maxAdvance` does not enter. -/
theorem shapeFont_y_accumulated (w : Collaborators) (m : Memory) (s : TextShaper)
    (size codepoints clusters font : Nat) (r : GlyphPositionList) (i : Nat) (g : HbGlyph)
    (hg : (engineOutput w font (hbInput m size codepoints clusters)).get? i = some g) :
    ((s.shapeFont w m size codepoints clusters font r).2.1.get? i).map (fun q => q.y)
      = some (toUnsigned
          ((((engineOutput w font (hbInput m size codepoints clusters)).take i).map
              (fun h => Int.fdiv h.y_advance 64)).sum
            + Int.fdiv g.y_offset 64)) := by
  have h := emitGlyphs_y (w.maxAdvance font) font
    (engineOutput w font (hbInput m size codepoints clusters)) 0 0 i g hg
  simp only [Nat.cast_zero, zero_add] at h
  exact h

/-- C16 at a concrete input: three glyphs with a vertical advance of 96 and a vertical offset
of -1. The third record has y `1 + 1 - 1 = 1`; flooring the sum of the two advances, 192,
would give `3 - 1 = 2`. -/
theorem shapeFont_y_accumulated_witness :
    ((TextShaper.new.shapeFont verticalWorld memoryAB 3 0 10 1 []).2.1.get? 2).map
        (fun q => q.y) = some 1
      ∧ Int.fdiv (96 + 96) 64 + Int.fdiv (-1) 64 = 2 :=
  ⟨shapeFont_y_accumulated verticalWorld memoryAB TextShaper.new 3 0 10 1 [] 2
    { codepoint := 1, cluster := 0, x_offset := 0, y_offset := -1, x_advance := 0,
      y_advance := 96 } (by decide), by decide⟩

/-! ## What a hit and a miss return -/

/-- The lookup reads the codepoint content alone: once a call of `shape` has returned a list
for a run, a call for a run with the same codepoint content returns that list as it is,
whatever fonts and clusters it is given and wherever the caller keeps the codepoints, and it
makes no attempt and changes nothing; this holds on every state whose cache containers are
those the first call left, so also after `clearCache`. -/
theorem shape_key_is_content (w : Collaborators) (m m2 : Memory) (s t : TextShaper)
    (fonts1 fonts2 : FontList) (size codepoints clusters1 codepoints2 clusters2 : Nat)
    (hsame : View.read m2 { data := codepoints2, size := size }
      = View.read m { data := codepoints, size := size })
    (h1 : t.cache_ = (s.shape w m fonts1 size codepoints clusters1).1.cache_)
    (h2 : t.cacheKeys_ = (s.shape w m fonts1 size codepoints clusters1).1.cacheKeys_) :
    (t.shape w m2 fonts2 size codepoints2 clusters2).2
        = (s.shape w m fonts1 size codepoints clusters1).2
      ∧ (t.shape w m2 fonts2 size codepoints2 clusters2).1 = t
      ∧ (t.shape w m2 fonts2 size codepoints2 clusters2).1.shaped = t.shaped := by
  have h := shape_hit w m2 t fonts2 size codepoints2 clusters2
    (s.shape w m fonts1 size codepoints clusters1).2 (by
      rw [hsame, find_congr w _ t _ h1 h2]
      exact shape_find w m s fonts1 size codepoints clusters1)
  rw [h]
  exact ⟨rfl, rfl, rfl⟩

/-- The same at a concrete input: the run `A B` is shaped with font `3`, then asked for again
with the fonts `1, 2` and with the clusters read from another address; the list of the first
call, whose records reference font `3`, is returned and no attempt is recorded. -/
theorem shape_key_is_content_example :
    (shapedAB.1.shape exampleWorld memoryAB (1, [2]) 2 0 20).2 = shapedAB.2
      ∧ (shapedAB.1.shape exampleWorld memoryAB (1, [2]) 2 0 20).1.shaped = shapedAB.1.shaped :=
  have h := shape_key_is_content exampleWorld memoryAB memoryAB TextShaper.new shapedAB.1
    (3, []) (1, [2]) 2 0 10 0 20 rfl rfl rfl
  ⟨h.1, h.2.2⟩

/-- The fallback loop returns true only with the list of a successful attempt against one of
the fallbacks. -/
theorem tryFallbacks_success (w : Collaborators) (m : Memory) (size codepoints clusters : Nat)
    (fs : List Nat) (s : TextShaper) (gp : GlyphPositionList)
    (h : (TextShaper.tryFallbacks w m size codepoints clusters s fs gp).2.2 = true) :
    ∃ f ∈ fs, (directAttempt w m size codepoints clusters f).2 = true
      ∧ (TextShaper.tryFallbacks w m size codepoints clusters s fs gp).2.1
          = (directAttempt w m size codepoints clusters f).1 := by
  induction fs generalizing s gp with
  | nil => simp [TextShaper.tryFallbacks] at h
  | cons f rest ih =>
    simp only [TextShaper.tryFallbacks] at h ⊢
    by_cases hf : (s.shapeFont w m size codepoints clusters f gp).2.2 = true
    · simp only [hf, if_true]
      refine ⟨f, List.mem_cons_self _ _, ?_, ?_⟩
      · rw [← shapeFont_snd w m s size codepoints clusters f gp]; exact hf
      · rw [shapeFont_snd]
    · simp only [hf, Bool.false_eq_true, if_false] at h ⊢
      obtain ⟨g, hg, h1, h2⟩ := ih _ _ h
      exact ⟨g, List.mem_cons_of_mem _ hg, h1, h2⟩

/-- What a miss returns: the list of a successful attempt against the primary font or a
fallback, or the patched list of the attempt against the primary font. -/
theorem shape_miss_cases (w : Collaborators) (m : Memory) (s : TextShaper) (fonts : FontList)
    (size codepoints clusters : Nat)
    (hmiss : s.find w (View.read m { data := codepoints, size := size }) = none) :
    (∃ f ∈ fonts.1 :: fonts.2, (directAttempt w m size codepoints clusters f).2 = true
        ∧ (s.shape w m fonts size codepoints clusters).2
            = (directAttempt w m size codepoints clusters f).1)
      ∨ (s.shape w m fonts size codepoints clusters).2
          = replaceMissingGlyphs w fonts.1
              (directAttempt w m size codepoints clusters fonts.1).1 := by
  simp only [TextShaper.shape, hmiss]
  split
  · rename_i h1
    left
    refine ⟨fonts.1, List.mem_cons_self _ _, ?_, by rw [cache_snd, shapeFont_snd]⟩
    rw [← shapeFont_snd w m s size codepoints clusters fonts.1 []]; exact h1
  · split
    · rename_i h2
      obtain ⟨f, hf, h3, h4⟩ := tryFallbacks_success w m size codepoints clusters fonts.2 _ _ h2
      left
      exact ⟨f, List.mem_cons_of_mem _ hf, h3, by rw [cache_snd, h4]⟩
    · right
      rw [cache_snd, shapeFont_snd]

/-- The patcher leaves no glyph index 0 when the font has a replacement glyph. -/
theorem replaceMissingGlyphs_no_zero (w : Collaborators) (font : Nat) (l : GlyphPositionList)
    (hr : w.FT_Get_Char_Index font 0xFFFD ≠ 0) :
    ∀ gp ∈ replaceMissingGlyphs w font l, gp.glyphIndex ≠ 0 := by
  intro gp hgp
  simp only [replaceMissingGlyphs, ne_eq, hr, not_false_eq_true, if_true, List.mem_map] at hgp
  obtain ⟨gp0, -, rfl⟩ := hgp
  by_cases h0 : gp0.glyphIndex = 0
  · simpa [glyphMissing, h0] using hr
  · simp [glyphMissing, h0]

/-- C18. No sentinel reaches the caller when a replacement glyph exists: on a cache miss,
if the primary font maps U+FFFD to a nonzero index, no record of the returned list has glyph
index 0; and on a cache miss, with or without a replacement glyph, all records of the
returned list reference one font, which is the primary font or one of the fallbacks. -/
theorem shape_miss_no_sentinel (w : Collaborators) (m : Memory) (s : TextShaper)
    (fonts : FontList) (size codepoints clusters : Nat)
    (hmiss : s.find w (View.read m { data := codepoints, size := size }) = none) :
    (w.FT_Get_Char_Index fonts.1 0xFFFD ≠ 0 →
        ∀ gp ∈ (s.shape w m fonts size codepoints clusters).2, gp.glyphIndex ≠ 0)
      ∧ ∃ f ∈ fonts.1 :: fonts.2,
          ∀ gp ∈ (s.shape w m fonts size codepoints clusters).2, gp.font = f := by
  rcases shape_miss_cases w m s fonts size codepoints clusters hmiss with
    ⟨f, hf, hok, hres⟩ | hres
  · rw [hres]
    refine ⟨fun _ gp hgp => ?_, f, hf, directAttempt_font w m size codepoints clusters f⟩
    rw [directAttempt_flag] at hok
    simp only [Bool.not_eq_true', List.any_eq_false] at hok
    have := hok gp hgp
    simpa [glyphMissing] using this
  · rw [hres]
    refine ⟨fun hr => replaceMissingGlyphs_no_zero w fonts.1 _ hr, fonts.1,
      List.mem_cons_self _ _, ?_⟩
    intro gp hgp
    obtain ⟨gp0, h0, h1⟩ := replaceMissingGlyphs_font w fonts.1 _ gp hgp
    rw [h1]
    exact directAttempt_font w m size codepoints clusters fonts.1 gp0 h0

/-- C18 at a concrete input: the run `A B` with the fonts `1, 2`, none of which has `B`; font
`1` has a replacement glyph, and no record of the returned list has glyph index 0. -/
theorem shape_miss_no_sentinel_witness :
    exampleWorld.FT_Get_Char_Index 1 0xFFFD ≠ 0
      ∧ (TextShaper.new.shape exampleWorld memoryAB (1, [2]) 2 0 10).2.all
          (fun gp => decide (gp.glyphIndex ≠ 0)) = true :=
  ⟨by decide, List.all_eq_true.mpr (fun gp hgp => decide_eq_true
    ((shape_miss_no_sentinel exampleWorld memoryAB TextShaper.new (1, [2]) 2 0 10
      (by decide)).1 (by decide) gp hgp))⟩

/-! ## Font handles -/

/-- An attempt against a font with no registered handle creates one and registers it. -/
theorem shapeFont_creates (w : Collaborators) (m : Memory) (s : TextShaper)
    (size codepoints clusters font : Nat) (r : GlyphPositionList)
    (h : s.hb_fonts_.find? (fun e => e.1 == font) = none) :
    (s.shapeFont w m size codepoints clusters font r).1.created = s.created ++ [font]
      ∧ (s.shapeFont w m size codepoints clusters font r).1.hb_fonts_
          = s.hb_fonts_ ++ [(font, s.created.length)]
      ∧ (s.shapeFont w m size codepoints clusters font r).1.shaped
          = s.shaped ++ [(font, s.created.length)] := by
  simp [TextShaper.shapeFont, TextShaper.handleFor, h]

/-- An attempt against a font with a registered handle uses that handle and creates none. -/
theorem shapeFont_reuses (w : Collaborators) (m : Memory) (s : TextShaper)
    (size codepoints clusters font : Nat) (r : GlyphPositionList) (e : Nat × Nat)
    (h : s.hb_fonts_.find? (fun e => e.1 == font) = some e) :
    (s.shapeFont w m size codepoints clusters font r).1.created = s.created
      ∧ (s.shapeFont w m size codepoints clusters font r).1.hb_fonts_ = s.hb_fonts_
      ∧ (s.shapeFont w m size codepoints clusters font r).1.shaped
          = s.shaped ++ [(font, e.2)] := by
  simp [TextShaper.shapeFont, TextShaper.handleFor, h]

theorem shapeFont_handlesAgree (w : Collaborators) (m : Memory) (s : TextShaper)
    (size codepoints clusters font : Nat) (r : GlyphPositionList) (hs : s.HandlesAgree) :
    (s.shapeFont w m size codepoints clusters font r).1.HandlesAgree := by
  obtain ⟨i1, i2, i3, i4⟩ := hs
  cases h : s.hb_fonts_.find? (fun e => e.1 == font) with
  | none =>
    obtain ⟨c1, c2, c3⟩ := shapeFont_creates w m s size codepoints clusters font r h
    have hnot : font ∉ s.created := by
      rw [← i1]
      intro hmem
      obtain ⟨e, he, hfe⟩ := List.mem_map.mp hmem
      have := List.find?_eq_none.mp h e he
      simp [hfe] at this
    refine ⟨?_, ?_, ?_, ?_⟩
    · rw [c1, c2]; simp [i1]
    · rw [c1]
      exact List.nodup_append.mpr ⟨i2, List.nodup_singleton _, by
        intro a ha hb
        simp only [List.mem_singleton] at hb
        subst hb
        exact hnot ha⟩
    · intro f
      rw [c1, c3]
      simp only [List.mem_append, List.mem_singleton, List.map_append, List.map_cons,
        List.map_nil, i3 f]
    · intro p hp
      rw [c3] at hp
      rw [c2]
      rcases List.mem_append.mp hp with hp | hp
      · exact List.mem_append_left _ (i4 p hp)
      · exact List.mem_append_right _ hp
  | some e =>
    obtain ⟨c1, c2, c3⟩ := shapeFont_reuses w m s size codepoints clusters font r e h
    have he : e ∈ s.hb_fonts_ := List.mem_of_find?_eq_some h
    have hfe : e.1 = font := by
      have := List.find?_some h
      simpa using this
    have hmem : font ∈ s.created := by
      rw [← i1, ← hfe]
      exact List.mem_map_of_mem _ he
    refine ⟨?_, ?_, ?_, ?_⟩
    · rw [c1, c2]; exact i1
    · rw [c1]; exact i2
    · intro f
      rw [c1, c3]
      simp only [List.map_append, List.map_cons, List.map_nil, List.mem_append,
        List.mem_singleton, ← i3 f]
      constructor
      · intro hf; exact Or.inl hf
      · rintro (hf | rfl)
        · exact hf
        · exact hmem
    · intro p hp
      rw [c3] at hp
      rw [c2]
      rcases List.mem_append.mp hp with hp | hp
      · exact i4 p hp
      · simp only [List.mem_singleton] at hp
        rw [hp, ← hfe]
        exact he

/-- A property kept by every single-font attempt and by every store is kept by `shape`. -/
theorem shape_preserves (P : TextShaper → Prop) (w : Collaborators) (m : Memory)
    (size codepoints clusters : Nat)
    (hfont : ∀ (t : TextShaper) (font : Nat) (r : GlyphPositionList), P t →
      P (t.shapeFont w m size codepoints clusters font r).1)
    (hcache : ∀ (t : TextShaper) (key : View) (gp : GlyphPositionList), P t →
      P (t.cache w m key gp).1)
    (s : TextShaper) (fonts : FontList) (hs : P s) :
    P (s.shape w m fonts size codepoints clusters).1 := by
  have hfb : ∀ (fs : List Nat) (t : TextShaper) (gp : GlyphPositionList), P t →
      P (TextShaper.tryFallbacks w m size codepoints clusters t fs gp).1 := by
    intro fs
    induction fs with
    | nil => intro t gp ht; exact ht
    | cons f rest ih =>
      intro t gp ht
      simp only [TextShaper.tryFallbacks]
      split
      · exact hfont t f gp ht
      · exact ih _ _ (hfont t f gp ht)
  cases hfind : s.find w (View.read m { data := codepoints, size := size }) with
  | some cached => rw [shape_hit w m s fonts size codepoints clusters cached hfind]; exact hs
  | none =>
    simp only [TextShaper.shape, hfind]
    split
    · exact hcache _ _ _ (hfont _ _ _ hs)
    · split
      · exact hcache _ _ _ (hfb _ _ _ (hfont _ _ _ hs))
      · exact hcache _ _ _ (hfont _ _ _ (hfb _ _ _ (hfont _ _ _ hs)))

theorem shapeAll_handlesAgree (w : Collaborators) (calls : List ShapeCall) (s : TextShaper)
    (hs : s.HandlesAgree) : (TextShaper.shapeAll w s calls).HandlesAgree := by
  induction calls generalizing s with
  | nil => exact hs
  | cons c cs ih =>
    simp only [TextShaper.shapeAll]
    apply ih
    exact shape_preserves TextShaper.HandlesAgree w c.memory c.size c.codepoints c.clusters
      (fun t font r ht => shapeFont_handlesAgree w c.memory t c.size c.codepoints c.clusters
        font r ht)
      (fun t key gp ht => ht) s c.fonts hs

/-- C12. Font handle reuse. An attempt against a font that has no entry in `hb_fonts_`
creates one handle and registers it under the font; an attempt against a font that has an
entry runs on the registered handle and creates none. Hence after any sequence of `shape`
calls on a shaper fresh from the constructor, with no `clearCache` in between, the number of
handles created is the number of distinct fonts attempted, `hb_fonts_` has exactly one entry
for each of them and no other, and all attempts against one font ran on one handle. -/
theorem handles_created_once (w : Collaborators) (calls : List ShapeCall) :
    (∀ (m : Memory) (s : TextShaper) (size codepoints clusters font : Nat)
        (r : GlyphPositionList),
        s.hb_fonts_.find? (fun e => e.1 == font) = none →
        (s.shapeFont w m size codepoints clusters font r).1.created = s.created ++ [font]
          ∧ (s.shapeFont w m size codepoints clusters font r).1.hb_fonts_
              = s.hb_fonts_ ++ [(font, s.created.length)]
          ∧ (s.shapeFont w m size codepoints clusters font r).1.shaped
              = s.shaped ++ [(font, s.created.length)])
      ∧ (∀ (m : Memory) (s : TextShaper) (size codepoints clusters font : Nat)
          (r : GlyphPositionList) (e : Nat × Nat),
          s.hb_fonts_.find? (fun e => e.1 == font) = some e →
          (s.shapeFont w m size codepoints clusters font r).1.created = s.created
            ∧ (s.shapeFont w m size codepoints clusters font r).1.hb_fonts_ = s.hb_fonts_
            ∧ (s.shapeFont w m size codepoints clusters font r).1.shaped
                = s.shaped ++ [(font, e.2)])
      ∧ (TextShaper.shapeAll w TextShaper.new calls).created.length
          = ((TextShaper.shapeAll w TextShaper.new calls).shaped.map Prod.fst).toFinset.card
      ∧ (TextShaper.shapeAll w TextShaper.new calls).hb_fonts_.length
          = ((TextShaper.shapeAll w TextShaper.new calls).shaped.map Prod.fst).toFinset.card
      ∧ ((TextShaper.shapeAll w TextShaper.new calls).hb_fonts_.map Prod.fst).Nodup
      ∧ (∀ f : Nat, f ∈ (TextShaper.shapeAll w TextShaper.new calls).hb_fonts_.map Prod.fst
          ↔ f ∈ (TextShaper.shapeAll w TextShaper.new calls).shaped.map Prod.fst)
      ∧ ∀ f h h' : Nat, (f, h) ∈ (TextShaper.shapeAll w TextShaper.new calls).shaped →
          (f, h') ∈ (TextShaper.shapeAll w TextShaper.new calls).shaped → h = h' := by
  have hnew : TextShaper.new.HandlesAgree := by
    refine ⟨rfl, List.nodup_nil, fun f => ?_, fun p hp => ?_⟩
    · simp [TextShaper.new]
    · simp [TextShaper.new] at hp
  obtain ⟨i1, i2, i3, i4⟩ := shapeAll_handlesAgree w calls TextShaper.new hnew
  have hcard : (TextShaper.shapeAll w TextShaper.new calls).created.length
      = ((TextShaper.shapeAll w TextShaper.new calls).shaped.map Prod.fst).toFinset.card := by
    rw [← List.toFinset_card_of_nodup i2]
    congr 1
    ext f
    simp only [List.mem_toFinset]
    exact i3 f
  refine ⟨fun m s size codepoints clusters font r h =>
      shapeFont_creates w m s size codepoints clusters font r h,
    fun m s size codepoints clusters font r e h =>
      shapeFont_reuses w m s size codepoints clusters font r e h,
    hcard, ?_, ?_, ?_, ?_⟩
  · rw [← hcard, ← i1, List.length_map]
  · rw [i1]; exact i2
  · intro f; rw [i1]; exact i3 f
  · intro f h h' hh hh'
    have hd : ((TextShaper.shapeAll w TextShaper.new calls).hb_fonts_.map Prod.fst).Nodup := by
      rw [i1]; exact i2
    have := List.inj_on_of_nodup_map hd (i4 _ hh) (i4 _ hh') rfl
    exact (Prod.mk.injEq _ _ _ _ ▸ this).2

/-- C12 at a concrete input. On a fresh shaper an attempt against font `3` creates handle 0;
on the shaper that has shaped `A B` with font `3` another attempt against font `3` reuses it;
and after two `shape` calls that attempt the fonts 1, 2, 3 and then 1, 2, 1 the number of
handles created equals the number of distinct fonts attempted. -/
theorem handles_created_once_witness :
    (TextShaper.new.shapeFont exampleWorld memoryAB 2 0 10 3 []).1.hb_fonts_ = [] ++ [(3, 0)]
      ∧ (shapedAB.1.shapeFont exampleWorld memoryIB 2 0 10 3 []).1.created = shapedAB.1.created
      ∧ (TextShaper.shapeAll exampleWorld TextShaper.new
          [{ memory := memoryAB, fonts := (1, [2, 3]), size := 2, codepoints := 0,
             clusters := 10 },
           { memory := memoryCD, fonts := (1, [2]), size := 2, codepoints := 0,
             clusters := 10 }]).created.length
        = ((TextShaper.shapeAll exampleWorld TextShaper.new
          [{ memory := memoryAB, fonts := (1, [2, 3]), size := 2, codepoints := 0,
             clusters := 10 },
           { memory := memoryCD, fonts := (1, [2]), size := 2, codepoints := 0,
             clusters := 10 }]).shaped.map Prod.fst).toFinset.card :=
  ⟨((handles_created_once exampleWorld []).1 memoryAB TextShaper.new 2 0 10 3 []
      (by decide)).2.1,
    ((handles_created_once exampleWorld []).2.1 memoryIB shapedAB.1 2 0 10 3 [] (3, 0)
      (by decide)).1,
    (handles_created_once exampleWorld _).2.2.1⟩

/-! ## The store on a state with and without overwritten key buffers -/

theorem modifyNode_of_fixed {α : Type} (f : α → α) (l : List α) (i : Nat)
    (h : ∀ a, l.get? i = some a → f a = a) : modifyNode f i l = l := by
  induction l generalizing i with
  | nil => cases i <;> rfl
  | cons a as ih =>
    cases i with
    | zero => simp [modifyNode, h a (by simp)]
    | succ i =>
      simp only [modifyNode, List.cons.injEq, true_and]
      exact ih i (fun b hb => h b (by simpa using hb))

theorem findNode_get? {α : Type} (p : α → Bool) (l : List α) (i : Nat)
    (h : findNode p l = some i) : ∃ a, l.get? i = some a ∧ a ∈ l ∧ p a = true := by
  obtain ⟨a, h1, h2, -, -⟩ := find?_modifyNode_of_findNode p id (fun _ => rfl) l i h
  exact ⟨a, h1, List.get?_mem h1, h2⟩

theorem findNode_eq_none {α : Type} (p : α → Bool) (l : List α) :
    findNode p l = none ↔ ∀ a ∈ l, p a = false := by
  induction l with
  | nil => simp [findNode]
  | cons a as ih =>
    by_cases ha : p a = true
    · simp [findNode, ha]
    · simp only [Bool.not_eq_true] at ha
      simp [findNode, ha, ih]

theorem find?_modifyNode_other {α : Type} (p : α → Bool) (f : α → α) (l : List α) (i : Nat)
    (h : ∀ a, l.get? i = some a → p a = false ∧ p (f a) = false) :
    (modifyNode f i l).find? p = l.find? p := by
  induction l generalizing i with
  | nil => cases i <;> rfl
  | cons a as ih =>
    cases i with
    | zero =>
      obtain ⟨h1, h2⟩ := h a (by simp)
      simp [modifyNode, List.find?, h1, h2]
    | succ i =>
      simp only [modifyNode, List.find?]
      rw [ih i (fun b hb => h b (by simpa using hb))]

theorem find?_congr_mem {α : Type} (p q : α → Bool) (l : List α)
    (h : ∀ a ∈ l, p a = q a) : l.find? p = l.find? q := by
  induction l with
  | nil => rfl
  | cons a as ih =>
    simp only [List.find?, h a (List.mem_cons_self _ _)]
    rw [ih (fun b hb => h b (List.mem_cons_of_mem _ hb))]

theorem modifyNode_append_length {α : Type} (f : α → α) (l : List α) (a : α) :
    modifyNode f l.length (l ++ [a]) = l ++ [f a] := by
  induction l with
  | nil => rfl
  | cons b bs ih => simp [modifyNode, ih]

theorem modifyNode_length {α : Type} (f : α → α) (l : List α) (i : Nat) :
    (modifyNode f i l).length = l.length := by
  induction l generalizing i with
  | nil => cases i <;> rfl
  | cons a as ih =>
    cases i with
    | zero => simp [modifyNode]
    | succ i => simp [modifyNode, ih]

/-- The key container after the two subscript calls of a store, when no node whose buffer was
overwritten answers the key: either nothing changed or one node was added. -/
theorem keys_after_store (w : Collaborators) (m : Memory) (keys : List KeyNode) (key : View)
    (hkeys : ∀ n ∈ keys, keyMatches w m (key.read m) n = true → n.owned = key.read m) :
    modifyNode (fun n => { n with owned := key.read m }) (keysIndex w m keys key).2
        (keysIndex w m keys key).1 = keys
      ∨ modifyNode (fun n => { n with owned := key.read m }) (keysIndex w m keys key).2
        (keysIndex w m keys key).1
          = keys ++ [{ key := key, code := w.hash (key.read m), owned := key.read m }] := by
  unfold keysIndex indexNode
  cases h : findNode (keyMatches w m (key.read m)) keys with
  | some i =>
    left
    apply modifyNode_of_fixed
    intro a ha
    obtain ⟨b, hb1, hb2, hb3⟩ := findNode_get? _ keys i h
    have hab : b = a := by rw [hb1] at ha; exact Option.some.inj ha
    subst hab
    have := hkeys b hb2 hb3
    cases b
    simp_all
  | none =>
    right
    exact modifyNode_append_length _ keys _

theorem ownedAt_append (keys : List KeyNode) (n : KeyNode) (i : Nat) (hi : i < keys.length) :
    ownedAt (keys ++ [n]) i = ownedAt keys i := by
  simp [ownedAt, List.getElem?_append_left hi]

/-- Contract of the store on a state in which no node whose buffer was overwritten answers
the key and every key of `cache_` views an existing string: afterwards the content of the key
is found with the list stored, every other content is found exactly as before, and the number
of entries grows by one if the content was not cached and stays if it was. -/
theorem cache_store_sound (w : Collaborators) (m : Memory) (t : TextShaper) (key : View)
    (v : GlyphPositionList)
    (hkeys : ∀ n ∈ t.cacheKeys_, keyMatches w m (key.read m) n = true → n.owned = key.read m)
    (hrefs : ∀ c ∈ t.cache_, c.keyNode < t.cacheKeys_.length) :
    (∀ q : List Nat, (t.cache w m key v).1.find w q
        = if q = key.read m then some v else t.find w q)
      ∧ (t.cache w m key v).1.cache_.length
          = if (t.find w (key.read m)).isSome then t.cache_.length else t.cache_.length + 1 := by
  obtain ⟨e1, e2⟩ := keysIndex_after_assign w m t.cacheKeys_ key
  -- what the keys of `cache_` read is what they read before
  have hown : ∀ c ∈ t.cache_, ownedAt (modifyNode (fun n => { n with owned := key.read m })
      (keysIndex w m t.cacheKeys_ key).2 (keysIndex w m t.cacheKeys_ key).1) c.keyNode
        = ownedAt t.cacheKeys_ c.keyNode := by
    intro c hc
    rcases keys_after_store w m t.cacheKeys_ key hkeys with h | h
    · rw [h]
    · rw [h]; exact ownedAt_append _ _ _ (hrefs c hc)
  have hmatch : ∀ (q : List Nat), ∀ c ∈ t.cache_,
      cacheMatches w (modifyNode (fun n => { n with owned := key.read m })
        (keysIndex w m t.cacheKeys_ key).2 (keysIndex w m t.cacheKeys_ key).1) q c
        = cacheMatches w t.cacheKeys_ q c := by
    intro q c hc
    simp only [cacheMatches, hown c hc]
  have hother : ∀ (q : List Nat) (c : CacheNode), q ≠ key.read m →
      cacheMatches w (modifyNode (fun n => { n with owned := key.read m })
        (keysIndex w m t.cacheKeys_ key).2 (keysIndex w m t.cacheKeys_ key).1) (key.read m) c
        = true →
      cacheMatches w (modifyNode (fun n => { n with owned := key.read m })
        (keysIndex w m t.cacheKeys_ key).2 (keysIndex w m t.cacheKeys_ key).1) q c = false := by
    intro q c hq hc
    simp only [cacheMatches, Bool.and_eq_true, beq_iff_eq] at hc
    simp only [cacheMatches, hc.2, Bool.and_eq_false_imp, beq_iff_eq, beq_eq_false_iff_ne, ne_eq,
      Option.some.injEq]
    intro _ h
    exact hq h.symm
  constructor
  · intro q
    by_cases hq : q = key.read m
    · subst hq
      simp only [if_true]
      exact cache_find w m t key v
    · simp only [hq, if_false]
      simp only [TextShaper.cache, TextShaper.find, e1, cacheIndex, e2, Option.getD_some,
        indexNode]
      congr 1
      cases hf : findNode (cacheMatches w (modifyNode (fun n => { n with owned := key.read m })
          (keysIndex w m t.cacheKeys_ key).2 (keysIndex w m t.cacheKeys_ key).1) (key.read m))
          t.cache_ with
      | some l =>
        simp only
        obtain ⟨a, ha1, -, ha3⟩ := findNode_get? _ _ _ hf
        rw [find?_modifyNode_other _ _ _ _ (fun b hb => by
          have hab : a = b := by rw [ha1] at hb; exact Option.some.inj hb
          subst hab
          exact ⟨hother q a hq ha3, hother q _ hq ha3⟩)]
        exact find?_congr_mem _ _ _ (hmatch q)
      | none =>
        simp only
        rw [modifyNode_append_length, List.find?_append]
        have hx : cacheMatches w (modifyNode (fun n => { n with owned := key.read m })
            (keysIndex w m t.cacheKeys_ key).2 (keysIndex w m t.cacheKeys_ key).1) q
            { keyNode := (keysIndex w m t.cacheKeys_ key).2, code := w.hash (key.read m),
              value := v } = false :=
          hother q _ hq (by simp [cacheMatches, e2])
        simp only [List.find?, hx, Option.or_none]
        exact find?_congr_mem _ _ _ (hmatch q)
  · simp only [TextShaper.cache, TextShaper.find, e1, cacheIndex, e2, Option.getD_some,
      indexNode, modifyNode_length, Option.isSome_map']
    cases hf : findNode (cacheMatches w (modifyNode (fun n => { n with owned := key.read m })
        (keysIndex w m t.cacheKeys_ key).2 (keysIndex w m t.cacheKeys_ key).1) (key.read m))
        t.cache_ with
    | some l =>
      obtain ⟨a, -, ha2, ha3⟩ := findNode_get? _ _ _ hf
      rw [hmatch _ a ha2] at ha3
      have : (t.cache_.find? (cacheMatches w t.cacheKeys_ (key.read m))).isSome = true := by
        rw [List.find?_isSome]
        exact ⟨a, ha2, ha3⟩
      simp [this]
    | none =>
      have hn := (findNode_eq_none _ _).mp hf
      have : t.cache_.find? (cacheMatches w t.cacheKeys_ (key.read m)) = none := by
        rw [List.find?_eq_none]
        intro a ha
        rw [← hmatch _ a ha, hn a ha]
        simp
      simp [this]

/-- A miss on a state in which no node whose buffer was overwritten answers the run and every
key of `cache_` views an existing string: the run is afterwards found with the list returned,
every other content is found exactly as before, and exactly one entry was added. -/
theorem shape_miss_sound (w : Collaborators) (m : Memory) (s : TextShaper) (fonts : FontList)
    (size codepoints clusters : Nat)
    (hmiss : s.find w (View.read m { data := codepoints, size := size }) = none)
    (hkeys : ∀ n ∈ s.cacheKeys_,
      keyMatches w m (View.read m { data := codepoints, size := size }) n = true →
      n.owned = View.read m { data := codepoints, size := size })
    (hrefs : ∀ c ∈ s.cache_, c.keyNode < s.cacheKeys_.length) :
    (∀ q : List Nat, (s.shape w m fonts size codepoints clusters).1.find w q
        = if q = View.read m { data := codepoints, size := size }
          then some (s.shape w m fonts size codepoints clusters).2 else s.find w q)
      ∧ (s.shape w m fonts size codepoints clusters).1.cache_.length = s.cache_.length + 1 := by
  obtain ⟨t, gp, e, c1, c2⟩ := shape_miss w m s fonts size codepoints clusters hmiss
  have ht : ∀ q, t.find w q = s.find w q := fun q => find_congr w s t q c1 c2
  obtain ⟨h1, h2⟩ := cache_store_sound w m t { data := codepoints, size := size } gp
    (by rw [c2]; exact hkeys) (by rw [c1, c2]; exact hrefs)
  rw [e, cache_snd]
  refine ⟨fun q => by rw [h1 q, ht q], ?_⟩
  rw [h2, ht, hmiss, c1]
  simp

/-! ## The stores at a collision of the standard hash -/

/-- C10 evaluated on the code. The runs `formerRun` and `latterRun` differ and have the same
hash code under `std::hash`, and both fit the small-string buffer. `formerRun` is shaped from
the buffer at address 0, the caller writes `latterRun` over it and shapes again. The key of
the node of `cacheKeys_` is the view of that buffer, so the second store finds the node of
`formerRun`, assigns `latterRun` to its owned string and with it rewrites the key of the entry
of `formerRun`: afterwards the cache has a single entry, a lookup of `formerRun` misses and
only `latterRun` is found, while no storage was released. Without a collision, as with `I B`
written over `A B`, a second node is added and `A B` is still found. -/
theorem buffer_reuse_rewrites_owned_key :
    formerRun ≠ latterRun
      ∧ exampleWorld.hash formerRun = 4055609943738716141
      ∧ exampleWorld.hash latterRun = 4055609943738716141
      ∧ View.read memoryFormer { data := 0, size := 3 } = formerRun
      ∧ View.read memoryLatter { data := 0, size := 3 } = latterRun
      ∧ shapedFormer.1.find exampleWorld formerRun = some shapedFormer.2
      ∧ shapedFormer.1.find exampleWorld latterRun = none
      ∧ (shapedFormer.1.shape exampleWorld memoryLatter (3, []) 3 0 10).1.find exampleWorld
          formerRun = none
      ∧ (shapedFormer.1.shape exampleWorld memoryLatter (3, []) 3 0 10).1.find exampleWorld
          latterRun = some (shapedFormer.1.shape exampleWorld memoryLatter (3, []) 3 0 10).2
      ∧ (shapedFormer.1.shape exampleWorld memoryLatter (3, []) 3 0 10).2
          = (directAttempt exampleWorld memoryLatter 3 0 10 3).1
      ∧ (shapedFormer.1.shape exampleWorld memoryLatter (3, []) 3 0 10).1.cache_.length = 1
      ∧ (shapedFormer.1.shape exampleWorld memoryLatter (3, []) 3 0 10).1.cacheKeys_
          = [{ key := { data := 0, size := 3 }, code := 4055609943738716141,
               owned := latterRun }]
      ∧ (shapedFormer.1.shape exampleWorld memoryLatter (3, []) 3 0 10).1.dangling = false
      ∧ (shapedAB.1.shape exampleWorld memoryIB (3, []) 2 0 10).1.find exampleWorld [65, 66]
          = some shapedAB.2
      ∧ (shapedAB.1.shape exampleWorld memoryIB (3, []) 2 0 10).1.cache_.length = 2 := by
  decide

/-- C11 evaluated on the code. `formerRun` is shaped from the buffer at address 0 with the
fonts `1, 2`, none of which covers it; the caller writes `latterRun`, a run with the same hash
code under `std::hash`, over it and shapes again the same way. The second call is a miss and
ends in the store, and its list is found under `latterRun`; but the cache has one entry before
the call and one entry after it, and `formerRun`, found before the call, is not found after
it: the store has overwritten the entry of `formerRun` instead of adding one. No storage was
released on the way. -/
theorem shape_miss_replaces_entry :
    (TextShaper.new.shape exampleWorld memoryFormer (1, [2]) 3 0 10).1.find exampleWorld
        (View.read memoryLatter { data := 0, size := 3 }) = none
      ∧ (TextShaper.new.shape exampleWorld memoryFormer (1, [2]) 3 0 10).1.find exampleWorld
          formerRun = some (TextShaper.new.shape exampleWorld memoryFormer (1, [2]) 3 0 10).2
      ∧ (TextShaper.new.shape exampleWorld memoryFormer (1, [2]) 3 0 10).1.cache_.length = 1
      ∧ ((TextShaper.new.shape exampleWorld memoryFormer (1, [2]) 3 0 10).1.shape exampleWorld
          memoryLatter (1, [2]) 3 0 10).1.cache_.length = 1
      ∧ ((TextShaper.new.shape exampleWorld memoryFormer (1, [2]) 3 0 10).1.shape exampleWorld
          memoryLatter (1, [2]) 3 0 10).1.find exampleWorld formerRun = none
      ∧ ((TextShaper.new.shape exampleWorld memoryFormer (1, [2]) 3 0 10).1.shape exampleWorld
          memoryLatter (1, [2]) 3 0 10).1.find exampleWorld latterRun
        = some ((TextShaper.new.shape exampleWorld memoryFormer (1, [2]) 3 0 10).1.shape
            exampleWorld memoryLatter (1, [2]) 3 0 10).2
      ∧ ((TextShaper.new.shape exampleWorld memoryFormer (1, [2]) 3 0 10).1.shape exampleWorld
          memoryLatter (1, [2]) 3 0 10).1.dangling = false := by
  decide

/-- C14 evaluated on the code. On the shaper that has cached `formerRun` from a buffer that
now holds `latterRun`, a run with the same hash code under `std::hash`, the store of a list
under the key `latterRun` returns the list and makes it found under `latterRun`; but the entry
of the other key `formerRun` does not keep its value: `formerRun` is no longer found, and the
cache still has one entry. No storage was released. -/
theorem cache_rewrites_other_entry :
    (shapedFormer.1.cache exampleWorld memoryLatter { data := 0, size := 3 }
        [{ font := 3, x := 1, y := 0, glyphIndex := 26533, cluster := 0 }]).2
        = [{ font := 3, x := 1, y := 0, glyphIndex := 26533, cluster := 0 }]
      ∧ (shapedFormer.1.cache exampleWorld memoryLatter { data := 0, size := 3 }
          [{ font := 3, x := 1, y := 0, glyphIndex := 26533, cluster := 0 }]).1.find
          exampleWorld latterRun
        = some [{ font := 3, x := 1, y := 0, glyphIndex := 26533, cluster := 0 }]
      ∧ shapedFormer.1.find exampleWorld formerRun = some shapedFormer.2
      ∧ shapedFormer.1.find exampleWorld latterRun = none
      ∧ (shapedFormer.1.cache exampleWorld memoryLatter { data := 0, size := 3 }
          [{ font := 3, x := 1, y := 0, glyphIndex := 26533, cluster := 0 }]).1.find
          exampleWorld formerRun = none
      ∧ shapedFormer.1.cache_.length = 1
      ∧ (shapedFormer.1.cache exampleWorld memoryLatter { data := 0, size := 3 }
          [{ font := 3, x := 1, y := 0, glyphIndex := 26533, cluster := 0 }]).1.cache_.length
        = 1
      ∧ (shapedFormer.1.cache exampleWorld memoryLatter { data := 0, size := 3 }
          [{ font := 3, x := 1, y := 0, glyphIndex := 26533, cluster := 0 }]).1.dangling
        = false := by
  decide

/-- C17 evaluated on the code. `formerRun` is shaped with font `3` from the buffer at address
0 and its list is stored; the caller writes `latterRun`, a run with the same hash code under
`std::hash`, over the buffer and shapes it. A later call for `formerRun`, held in another
buffer and given the fonts `1, 2`, does not return the first list: it is a miss, it attempts
the fonts 1, 2 and 1 again, and it returns a list whose records reference font `1`. Asked
right after the first call, the same call returns the first list and attempts nothing. -/
theorem later_shape_misses_after_overwrite :
    View.read memoryBoth { data := 20, size := 3 } = formerRun
      ∧ View.read memoryBoth { data := 0, size := 3 } = latterRun
      ∧ (shapedFormer.1.shape exampleWorld memoryBoth (1, [2]) 3 20 10).2 = shapedFormer.2
      ∧ (shapedFormer.1.shape exampleWorld memoryBoth (1, [2]) 3 20 10).1.shaped
          = shapedFormer.1.shaped
      ∧ shapedFormer.2.map (fun gp => gp.font) = [3, 3, 3]
      ∧ (shapedFormer.1.shape exampleWorld memoryLatter (3, []) 3 0 10).1.dangling = false
      ∧ (shapedFormer.1.shape exampleWorld memoryLatter (3, []) 3 0 10).1.find exampleWorld
          formerRun = none
      ∧ ((shapedFormer.1.shape exampleWorld memoryLatter (3, []) 3 0 10).1.shape exampleWorld
          memoryBoth (1, [2]) 3 20 10).2 ≠ shapedFormer.2
      ∧ ((shapedFormer.1.shape exampleWorld memoryLatter (3, []) 3 0 10).1.shape exampleWorld
          memoryBoth (1, [2]) 3 20 10).2.map (fun gp => gp.font) = [1, 1, 1]
      ∧ ((shapedFormer.1.shape exampleWorld memoryLatter (3, []) 3 0 10).1.shape exampleWorld
          memoryBoth (1, [2]) 3 20 10).1.shaped.map Prod.fst
        = (shapedFormer.1.shape exampleWorld memoryLatter (3, []) 3 0 10).1.shaped.map Prod.fst
          ++ [1, 2, 1] := by
  decide

/-! ## Later lookups -/

theorem mem_modifyNode {α : Type} (f : α → α) (l : List α) (i : Nat) (a : α)
    (h : a ∈ modifyNode f i l) : a ∈ l ∨ ∃ b ∈ l, a = f b := by
  induction l generalizing i with
  | nil => cases i <;> simp [modifyNode] at h
  | cons x xs ih =>
    cases i with
    | zero =>
      simp only [modifyNode, List.mem_cons] at h
      rcases h with h | h
      · exact Or.inr ⟨x, List.mem_cons_self _ _, h⟩
      · exact Or.inl (List.mem_cons_of_mem _ h)
    | succ i =>
      simp only [modifyNode, List.mem_cons] at h
      rcases h with h | h
      · exact Or.inl (h ▸ List.mem_cons_self _ _)
      · rcases ih i h with h' | ⟨b, hb, hab⟩
        · exact Or.inl (List.mem_cons_of_mem _ h')
        · exact Or.inr ⟨b, List.mem_cons_of_mem _ hb, hab⟩

/-- The store keeps every key of `cache_` on an existing string. -/
theorem cache_keysBacked (w : Collaborators) (m : Memory) (t : TextShaper) (key : View)
    (v : GlyphPositionList) (ht : t.KeysBacked) : (t.cache w m key v).1.KeysBacked := by
  obtain ⟨e1, -⟩ := keysIndex_after_assign w m t.cacheKeys_ key
  obtain ⟨a, ha, -, -, -, -⟩ := indexNode_spec (keyMatches w m (key.read m))
    (fun n => { n with owned := key.read m })
    { key := key, code := w.hash (key.read m), owned := [] } (fun _ => rfl)
    (by simp [keyMatches]) t.cacheKeys_
  have hidx : (keysIndex w m t.cacheKeys_ key).2 < (keysIndex w m t.cacheKeys_ key).1.length := by
    have := List.get?_eq_some.mp ha
    exact this.1
  have hlen : t.cacheKeys_.length ≤ (keysIndex w m t.cacheKeys_ key).1.length := by
    unfold keysIndex indexNode
    split <;> simp
  intro c hc
  simp only [TextShaper.cache, e1, modifyNode_length] at hc ⊢
  have hbase : ∀ b ∈ (cacheIndex w (modifyNode (fun n => { n with owned := key.read m })
      (keysIndex w m t.cacheKeys_ key).2 (keysIndex w m t.cacheKeys_ key).1) t.cache_
      (keysIndex w m t.cacheKeys_ key).2).1,
      b.keyNode < (keysIndex w m t.cacheKeys_ key).1.length := by
    intro b hb
    unfold cacheIndex indexNode at hb
    split at hb
    · exact lt_of_lt_of_le (ht b hb) hlen
    · rcases List.mem_append.mp hb with hb | hb
      · exact lt_of_lt_of_le (ht b hb) hlen
      · simp only [List.mem_singleton] at hb
        rw [hb]
        exact hidx
  rcases mem_modifyNode _ _ _ _ hc with h | ⟨b, hb, rfl⟩
  · exact hbase c h
  · exact hbase b hb

theorem shape_keysBacked (w : Collaborators) (m : Memory) (s : TextShaper) (fonts : FontList)
    (size codepoints clusters : Nat) (hs : s.KeysBacked) :
    (s.shape w m fonts size codepoints clusters).1.KeysBacked :=
  shape_preserves TextShaper.KeysBacked w m size codepoints clusters
    (fun t font r ht => by
      obtain ⟨-, h2, h3⟩ := shapeFont_frame w m t size codepoints clusters font r
      intro c hc
      rw [h2] at hc
      rw [h3]
      exact ht c hc)
    (fun t key gp ht => cache_keysBacked w m t key gp ht) s fonts hs

/-- A list found under a content stays found under it through any sequence of `shape` calls
none of which meets a node whose buffer was overwritten. -/
theorem find_kept_by_sound_calls (w : Collaborators) (calls : List ShapeCall) (s : TextShaper)
    (q : List Nat) (l : GlyphPositionList) (hfind : s.find w q = some l)
    (hs : s.KeysBacked) (hsound : TextShaper.CallsSound w s calls) :
    (TextShaper.shapeAll w s calls).find w q = some l := by
  induction calls generalizing s with
  | nil => exact hfind
  | cons c cs ih =>
    obtain ⟨h1, h2⟩ := hsound
    simp only [TextShaper.shapeAll]
    apply ih _ _ (shape_keysBacked w c.memory s c.fonts c.size c.codepoints c.clusters hs) h2
    cases hf : s.find w (View.read c.memory { data := c.codepoints, size := c.size }) with
    | some cached =>
      rw [shape_hit w c.memory s c.fonts c.size c.codepoints c.clusters cached hf]
      exact hfind
    | none =>
      rw [(shape_miss_sound w c.memory s c.fonts c.size c.codepoints c.clusters hf h1 hs).1 q]
      have hq : q ≠ View.read c.memory { data := c.codepoints, size := c.size } := by
        intro h
        rw [h, hf] at hfind
        exact Option.noConfusion hfind
      simp only [hq, if_false]
      exact hfind

/-- Any later `shape` for the same codepoint content returns the first list and attempts
nothing, whatever fonts, clusters and buffer it is given, after any sequence of `shape` calls
none of which meets a node whose buffer was overwritten. -/
theorem later_shape_hits_when_sound (w : Collaborators) (m m2 : Memory) (s : TextShaper)
    (fonts1 fonts2 : FontList) (size codepoints clusters1 codepoints2 clusters2 : Nat)
    (calls : List ShapeCall)
    (hsame : View.read m2 { data := codepoints2, size := size }
      = View.read m { data := codepoints, size := size })
    (hs : s.KeysBacked)
    (hsound : TextShaper.CallsSound w (s.shape w m fonts1 size codepoints clusters1).1 calls) :
    (TextShaper.shapeAll w (s.shape w m fonts1 size codepoints clusters1).1 calls).shape w m2
        fonts2 size codepoints2 clusters2
      = (TextShaper.shapeAll w (s.shape w m fonts1 size codepoints clusters1).1 calls,
          (s.shape w m fonts1 size codepoints clusters1).2) := by
  apply shape_hit
  rw [hsame]
  exact find_kept_by_sound_calls w calls _ _ _ (shape_find w m s fonts1 size codepoints clusters1)
    (shape_keysBacked w m s fonts1 size codepoints clusters1 hs) hsound

/-- A store of a run that fits the small-string buffer releases no storage. -/
theorem cache_releases_nothing_when_local (w : Collaborators) (m : Memory) (t : TextShaper)
    (key : View) (v : GlyphPositionList) (h : key.size ≤ w.localCapacity) :
    (t.cache w m key v).1.dangling = t.dangling := by
  have hn : ¬ w.localCapacity < key.size := Nat.not_lt.mpr h
  simp only [TextShaper.cache, releasesViewed]
  split <;> simp [hn]

end crispy.text
